import Mathlib

/-!
Verification development for the L2 capital-velocity simulator.

The Python source is embedded shallowly:
- integer balances (`int` sats) become `Int`;
- `float` quantities (timestamps, split fractions, TVL values) become `ℚ`;
- Python dicts keyed by user id become functions `Int → Option _` with
  pointwise update;
- each engine's mutable object state becomes a structure, and
  `process_transaction` becomes a function `State → Transaction → Bool × State`.

Module-level configuration constants (channel capacity, refill target
fraction, rebalance cost and latency, round interval) are imported by the
engines from `src.config`; they are modelled as explicit fields of the
engine state, matching the constructor-configuration description of the
spec, so every theorem quantifies over them.
-/

/-- Truncation toward zero, the semantics of Python `int()` applied to a
rational value. For nonnegative arguments this agrees with the floor. -/
def pyInt (q : ℚ) : Int := if 0 ≤ q then q.floor else -((-q).floor)

theorem pyInt_eq_floor (q : ℚ) (h : 0 ≤ q) : pyInt q = ⌊q⌋ := by
  rw [pyInt, if_pos h, Rat.floor_def', Rat.floor_def]

/-- Classification of transaction flow direction (`src/models.py`). -/
inductive TransactionType where
  | INTERNAL : TransactionType
  | EXTERNAL_INBOUND : TransactionType
  | EXTERNAL_OUTBOUND : TransactionType
deriving DecidableEq, Repr

/-- A single transaction in the simulation (`src/models.py`). The `tx_id`
string is carried but never inspected by the engines. -/
structure Transaction where
  tx_id : String
  timestamp : ℚ
  sender_id : Int
  receiver_id : Int
  amount_sats : Int
  tx_type : TransactionType
deriving DecidableEq, Repr

/-- Channel balance state for the static-channel engines
(`src/engines/legacy_engine.py`, `ChannelBalance`). -/
structure ChannelBalance where
  local_balance : Int
  remote_balance : Int
deriving DecidableEq, Repr

/-- A dict from user id to channel balance, modelled as a function. -/
def ChannelMap : Type := Int → Option ChannelBalance

/-- Pointwise update of a channel map (Python dict entry mutation). -/
def ChannelMap.set (m : ChannelMap) (uid : Int) (ch : ChannelBalance) : ChannelMap :=
  fun uid' => if uid' = uid then some ch else m uid'

theorem ChannelMap.set_same (m : ChannelMap) (uid : Int) (ch : ChannelBalance) :
    m.set uid ch uid = some ch := by
  simp [ChannelMap.set]

theorem ChannelMap.set_other (m : ChannelMap) (uid uid' : Int) (ch : ChannelBalance)
    (h : uid' ≠ uid) : m.set uid ch uid' = m uid' := by
  simp [ChannelMap.set, h]

namespace LegacyEngine

/-- State of the static-channel engine (`LegacyEngine.__init__` fields). -/
structure State where
  channel_capacity : Int
  initial_split : ℚ
  channels : ChannelMap

/-- Constructor of the static-channel engine: each listed user gets a
channel with `local = int(capacity * split)` and `remote = capacity - local`. -/
def State.mk_engine (user_ids : List Int) (channel_capacity : Int)
    (initial_split : ℚ) : State :=
  let local_balance := pyInt ((channel_capacity : ℚ) * initial_split)
  let remote_balance := channel_capacity - local_balance
  { channel_capacity := channel_capacity
    initial_split := initial_split
    channels := fun uid =>
      if uid ∈ user_ids then some ⟨local_balance, remote_balance⟩ else none }

/-- Process user sending to the external world: the user's remote balance
decreases and the LSP's local balance increases
(`LegacyEngine._process_external_outbound`). -/
def State.process_external_outbound (s : State) (sender_id amount : Int) :
    Bool × State :=
  match s.channels sender_id with
  | none => (false, s)
  | some ch =>
    if ch.remote_balance < amount then (false, s)
    else
      (true, { s with channels :=
        s.channels.set sender_id ⟨ch.local_balance + amount, ch.remote_balance - amount⟩ })

/-- Process the external world sending to a user: the LSP's local balance
decreases and the user's remote balance increases
(`LegacyEngine._process_external_inbound`). -/
def State.process_external_inbound (s : State) (receiver_id amount : Int) :
    Bool × State :=
  match s.channels receiver_id with
  | none => (false, s)
  | some ch =>
    if ch.local_balance < amount then (false, s)
    else
      (true, { s with channels :=
        s.channels.set receiver_id ⟨ch.local_balance - amount, ch.remote_balance + amount⟩ })

/-- Process an internal transfer between two users via the LSP
(`LegacyEngine._process_internal`). The two channel mutations are applied
sequentially, re-reading the map, which reproduces Python's aliasing
behaviour when sender and receiver coincide. -/
def State.process_internal (s : State) (sender_id receiver_id amount : Int) :
    Bool × State :=
  match s.channels sender_id, s.channels receiver_id with
  | none, _ => (false, s)
  | some _, none => (false, s)
  | some sch, some rch =>
    if sch.remote_balance < amount ∨ rch.local_balance < amount then (false, s)
    else
      let m1 := s.channels.set sender_id
        ⟨sch.local_balance + amount, sch.remote_balance - amount⟩
      let m2 :=
        match m1 receiver_id with
        | none => m1
        | some rch' =>
          m1.set receiver_id ⟨rch'.local_balance - amount, rch'.remote_balance + amount⟩
      (true, { s with channels := m2 })

/-- Dispatch a transaction by type (`LegacyEngine.process_transaction`). -/
def State.process_transaction (s : State) (tx : Transaction) : Bool × State :=
  match tx.tx_type with
  | TransactionType.EXTERNAL_OUTBOUND =>
    s.process_external_outbound tx.sender_id tx.amount_sats
  | TransactionType.EXTERNAL_INBOUND =>
    s.process_external_inbound tx.receiver_id tx.amount_sats
  | TransactionType.INTERNAL =>
    s.process_internal tx.sender_id tx.receiver_id tx.amount_sats

/-- Replay a transaction list through the engine, in order. -/
def State.run_txs : State → List Transaction → State
  | s, [] => s
  | s, tx :: rest => State.run_txs (s.process_transaction tx).2 rest

end LegacyEngine

namespace LegacyRefillEngine

/-- State of the JIT-refill engine (`src/engines/legacy_refill_engine.py`).
It extends the static-channel state with operational-cost tracking. The
module constants `REFILL_TARGET_PCT`, `REBALANCE_COST_SATS` and
`REBALANCE_LATENCY_SECONDS` come from `src.config` and are modelled as
constructor configuration carried in the state. -/
structure State where
  base : LegacyEngine.State
  refill_target_pct : ℚ
  rebalance_cost_sats : Int
  rebalance_latency_seconds : Int
  total_fees_paid : Int
  total_latency_seconds : Int
  refill_count : Int
  total_tx_count : Int

/-- Constructor: static channels plus zeroed operational metrics. -/
def State.mk_engine (user_ids : List Int) (channel_capacity : Int)
    (initial_split : ℚ) (refill_target_pct : ℚ) (rebalance_cost_sats : Int)
    (rebalance_latency_seconds : Int) : State :=
  { base := LegacyEngine.State.mk_engine user_ids channel_capacity initial_split
    refill_target_pct := refill_target_pct
    rebalance_cost_sats := rebalance_cost_sats
    rebalance_latency_seconds := rebalance_latency_seconds
    total_fees_paid := 0
    total_latency_seconds := 0
    refill_count := 0
    total_tx_count := 0 }

/-- Refill the receiver's channel if the LSP lacks liquidity
(`LegacyRefillEngine._maybe_refill_for_receiver`): raise the local balance
to `max(int(capacity * refill_target_pct), amount)` and record one refill
event, or do nothing when no refill is needed. -/
def State.maybe_refill_for_receiver (s : State) (receiver_id amount : Int) :
    State :=
  match s.base.channels receiver_id with
  | none => s
  | some ch =>
    let current_local := ch.local_balance
    if amount ≤ current_local then s
    else
      let target_local :=
        max (pyInt ((s.base.channel_capacity : ℚ) * s.refill_target_pct)) amount
      let amount_to_add := target_local - current_local
      if amount_to_add ≤ 0 then s
      else
        { s with
          base := { s.base with channels :=
            (s.base.channels.set receiver_id
              ⟨current_local + amount_to_add, ch.remote_balance⟩) }
          total_fees_paid := s.total_fees_paid + s.rebalance_cost_sats
          total_latency_seconds :=
            s.total_latency_seconds + s.rebalance_latency_seconds
          refill_count := s.refill_count + 1 }

/-- Step 1 of `LegacyRefillEngine.process_transaction`: analyze liquidity
and potentially refill. Internal transfers refill the receiver only when
the sender's remote balance already covers the amount; outbound
transactions never refill. -/
def State.refill_step (s : State) (tx : Transaction) : State :=
  match tx.tx_type with
  | TransactionType.EXTERNAL_INBOUND =>
    s.maybe_refill_for_receiver tx.receiver_id tx.amount_sats
  | TransactionType.INTERNAL =>
    match s.base.channels tx.sender_id with
    | none => s
    | some sender_channel =>
      if tx.amount_sats ≤ sender_channel.remote_balance then
        s.maybe_refill_for_receiver tx.receiver_id tx.amount_sats
      else s
  | TransactionType.EXTERNAL_OUTBOUND => s

/-- Process a transaction, refilling LSP liquidity if needed, then execute
via the parent static-channel implementation
(`LegacyRefillEngine.process_transaction`). -/
def State.process_transaction (s : State) (tx : Transaction) : Bool × State :=
  let s1 := { s with total_tx_count := s.total_tx_count + 1 }
  let s2 := s1.refill_step tx
  let result := s2.base.process_transaction tx
  (result.1, { s2 with base := result.2 })

/-- Replay a transaction list through the refill engine, in order. -/
def State.run_txs : State → List Transaction → State
  | s, [] => s
  | s, tx :: rest => State.run_txs (s.process_transaction tx).2 rest

end LegacyRefillEngine

namespace ArkEngine

/-- State of the Ark pooled-settlement engine (`src/engines/ark_engine.py`).
The module constant `ARK_ROUND_INTERVAL` comes from `src.config` and is
modelled as constructor configuration carried in the state. -/
structure State where
  round_interval : ℚ
  pool_capacity : Int
  pool_balance : Int
  user_balances : Int → Option Int
  last_round_time : ℚ
  round_count : Int
  tvl_samples : List Int

/-- Constructor: shared pool at full capacity, every listed user at the
given initial balance, round tracking at zero, and the TVL-sample list
seeded with the initial pool capacity. -/
def State.mk_engine (user_ids : List Int) (pool_capacity : Int)
    (user_initial_balance : Int) (round_interval : ℚ) : State :=
  { round_interval := round_interval
    pool_capacity := pool_capacity
    pool_balance := pool_capacity
    user_balances := fun uid =>
      if uid ∈ user_ids then some user_initial_balance else none
    last_round_time := 0
    round_count := 0
    tvl_samples := [pool_capacity] }

/-- Pointwise update of the user-balance dict. -/
def State.set_balance (s : State) (uid : Int) (b : Int) : State :=
  { s with user_balances := fun uid' =>
      if uid' = uid then some b else s.user_balances uid' }

/-- Check whether new settlement rounds have passed and update tracking
(`ArkEngine._check_round`): if at least one full round interval elapsed,
advance the round count and the last-round time and append the current
pool balance to the TVL-sample list. -/
def State.check_round (s : State) (current_time : ℚ) : State :=
  if current_time ≤ s.last_round_time then s
  else
    let elapsed := current_time - s.last_round_time
    let rounds_passed : Int := ⌊elapsed / s.round_interval⌋
    if 0 < rounds_passed then
      { s with
        round_count := s.round_count + rounds_passed
        last_round_time := s.last_round_time + rounds_passed * s.round_interval
        tvl_samples := s.tvl_samples ++ [s.pool_balance] }
    else s

/-- Process user sending to the external world: requires both the user's
balance and pool liquidity (`ArkEngine._process_external_outbound`). -/
def State.process_external_outbound (s : State) (sender_id amount : Int) :
    Bool × State :=
  match s.user_balances sender_id with
  | none => (false, s)
  | some user_balance =>
    if user_balance < amount then (false, s)
    else if s.pool_balance < amount then (false, s)
    else
      (true, { s.set_balance sender_id (user_balance - amount) with
        pool_balance := s.pool_balance - amount })

/-- Process the external world sending to a user: the pool grows and the
user's virtual balance is credited, with no cap enforced
(`ArkEngine._process_external_inbound`). -/
def State.process_external_inbound (s : State) (receiver_id amount : Int) :
    Bool × State :=
  match s.user_balances receiver_id with
  | none => (false, s)
  | some receiver_balance =>
    (true, { s.set_balance receiver_id (receiver_balance + amount) with
      pool_balance := s.pool_balance + amount })

/-- Process an internal transfer between two Ark users: no pool liquidity
required, funds move between virtual balances
(`ArkEngine._process_internal`). The two dict writes happen sequentially,
re-reading the map, which reproduces Python's behaviour when sender and
receiver coincide. -/
def State.process_internal (s : State) (sender_id receiver_id amount : Int) :
    Bool × State :=
  match s.user_balances sender_id with
  | none => (false, s)
  | some sender_balance =>
    if sender_balance < amount then (false, s)
    else
      match s.user_balances receiver_id with
      | none => (false, s)
      | some _ =>
        let s1 := s.set_balance sender_id (sender_balance - amount)
        match s1.user_balances receiver_id with
        | none => (false, s1)
        | some receiver_balance =>
          (true, s1.set_balance receiver_id (receiver_balance + amount))

/-- Dispatch a transaction by type after the round check
(`ArkEngine.process_transaction`). -/
def State.process_transaction (s : State) (tx : Transaction) : Bool × State :=
  let s1 := s.check_round tx.timestamp
  match tx.tx_type with
  | TransactionType.EXTERNAL_OUTBOUND =>
    s1.process_external_outbound tx.sender_id tx.amount_sats
  | TransactionType.EXTERNAL_INBOUND =>
    s1.process_external_inbound tx.receiver_id tx.amount_sats
  | TransactionType.INTERNAL =>
    s1.process_internal tx.sender_id tx.receiver_id tx.amount_sats

/-- Current TVL of the Ark engine: the pool balance
(`ArkEngine.get_current_tvl`). -/
def State.get_current_tvl (s : State) : ℚ := (s.pool_balance : ℚ)

/-- Replay a transaction list through the Ark engine, in order. -/
def State.run_txs : State → List Transaction → State
  | s, [] => s
  | s, tx :: rest => State.run_txs (s.process_transaction tx).2 rest

end ArkEngine

namespace Metrics

def SECONDS_PER_DAY : Int := 86400

def SATS_PER_BTC : Int := 100000000

/-- The accumulation loop of `calculate_btc_days` over adjacent sample
pairs: a left Riemann sum in sat-seconds, counting an interval only when
its time delta is strictly positive. -/
def riemann_sat_seconds : List (ℚ × ℚ) → ℚ
  | (prev_timestamp, prev_tvl) :: (curr_timestamp, curr_tvl) :: rest =>
    (if 0 < curr_timestamp - prev_timestamp then
       prev_tvl * (curr_timestamp - prev_timestamp)
     else 0) + riemann_sat_seconds ((curr_timestamp, curr_tvl) :: rest)
  | _ => 0

/-- Calculate the BTC-Days metric from TVL history
(`src/analysis/metrics.py`, `calculate_btc_days`). -/
def calculate_btc_days (tvl_history : List (ℚ × ℚ)) : ℚ :=
  if tvl_history.length < 2 then 0
  else riemann_sat_seconds tvl_history / (SATS_PER_BTC : ℚ) / (SECONDS_PER_DAY : ℚ)

end Metrics

/-- The abstract LSP engine interface consumed by the simulation runner
(`src/engines/abstract_engine.py`): a transaction processor over some
private state together with a TVL observer and a name. -/
structure Engine (σ : Type) where
  process_transaction : σ → Transaction → Bool × σ
  get_current_tvl : σ → ℚ
  get_name : String

/-- Replay a transaction list through an abstract engine, in order. -/
def Engine.run_txs (E : Engine σ) : σ → List Transaction → σ
  | s, [] => s
  | s, tx :: rest => E.run_txs (E.process_transaction s tx).2 rest

namespace SimulationRunner

/-- Results from a simulation run (`src/simulation/runner.py`,
`SimulationResult`). -/
structure SimulationResult where
  engine_name : String
  total_volume_processed : Int
  total_volume_failed : Int
  tx_success_count : Int
  tx_failure_count : Int
  tvl_history : List (ℚ × ℚ)

/-- The accumulation loop of `SimulationRunner.run`: process each
transaction through the engine, update the success or failure statistics,
and append one (timestamp, tvl) sample taken after the transaction. -/
def run_loop (E : Engine σ) (engine_state : σ) (acc : SimulationResult) :
    List Transaction → SimulationResult × σ
  | [] => (acc, engine_state)
  | tx :: rest =>
    let r := E.process_transaction engine_state tx
    let acc1 :=
      if r.1 then
        { acc with
          total_volume_processed := acc.total_volume_processed + tx.amount_sats
          tx_success_count := acc.tx_success_count + 1 }
      else
        { acc with
          total_volume_failed := acc.total_volume_failed + tx.amount_sats
          tx_failure_count := acc.tx_failure_count + 1 }
    let acc2 := { acc1 with
      tvl_history := acc1.tvl_history ++ [(tx.timestamp, E.get_current_tvl r.2)] }
    run_loop E r.2 acc2 rest

/-- Execute the simulation over an already-parsed transaction sequence and
return the results together with the final engine state
(`SimulationRunner.run`; the CSV loading is an out-of-scope I/O concern,
so the run is modelled on the parsed row list). -/
def run (E : Engine σ) (engine_state : σ) (txs : List Transaction) :
    SimulationResult × σ :=
  run_loop E engine_state
    { engine_name := E.get_name
      total_volume_processed := 0
      total_volume_failed := 0
      tx_success_count := 0
      tx_failure_count := 0
      tvl_history := [] } txs

end SimulationRunner

/-! Helper lemmas about channel-map updates. -/

theorem ChannelMap.set_forall {P : ChannelBalance → Prop} {m : ChannelMap}
    {k : Int} {ch : ChannelBalance} (hm : ∀ uid c, m uid = some c → P c)
    (hch : P ch) : ∀ uid c, (m.set k ch) uid = some c → P c := by
  intro uid c h
  unfold ChannelMap.set at h
  split at h
  · cases h; exact hch
  · exact hm uid c h

theorem ChannelMap.set_isSome {m : ChannelMap} {k : Int} {ch : ChannelBalance}
    (uid : Int) (h : (m uid).isSome) : ((m.set k ch) uid).isSome := by
  unfold ChannelMap.set
  split <;> simp [h]

namespace LegacyEngine

/-- The per-channel balance-sum invariant of the static-channel engine. -/
def State.ChanInv (s : State) : Prop :=
  ∀ uid ch, s.channels uid = some ch →
    ch.local_balance + ch.remote_balance = s.channel_capacity

theorem State.capacity_outbound (s : State) (sid amt : Int) :
    ((s.process_external_outbound sid amt).2).channel_capacity =
      s.channel_capacity := by
  unfold State.process_external_outbound
  split
  · rfl
  · split <;> rfl

theorem State.capacity_inbound (s : State) (rid amt : Int) :
    ((s.process_external_inbound rid amt).2).channel_capacity =
      s.channel_capacity := by
  unfold State.process_external_inbound
  split
  · rfl
  · split <;> rfl

theorem State.capacity_internal (s : State) (sid rid amt : Int) :
    ((s.process_internal sid rid amt).2).channel_capacity =
      s.channel_capacity := by
  unfold State.process_internal
  split
  · rfl
  · rfl
  · split <;> rfl

theorem State.capacity_process (s : State) (tx : Transaction) :
    ((s.process_transaction tx).2).channel_capacity = s.channel_capacity := by
  unfold State.process_transaction
  cases tx.tx_type
  · exact s.capacity_internal _ _ _
  · exact s.capacity_inbound _ _
  · exact s.capacity_outbound _ _

theorem State.chanInv_outbound {s : State} (sid amt : Int) (h : s.ChanInv) :
    ((s.process_external_outbound sid amt).2).ChanInv := by
  unfold State.process_external_outbound
  split
  · exact h
  · next ch hch =>
    split
    · exact h
    · intro uid c hc
      refine ChannelMap.set_forall (P := fun c =>
        c.local_balance + c.remote_balance = s.channel_capacity) h ?_ uid c hc
      have := h sid ch hch
      simp only
      omega

theorem State.chanInv_inbound {s : State} (rid amt : Int) (h : s.ChanInv) :
    ((s.process_external_inbound rid amt).2).ChanInv := by
  unfold State.process_external_inbound
  split
  · exact h
  · next ch hch =>
    split
    · exact h
    · intro uid c hc
      refine ChannelMap.set_forall (P := fun c =>
        c.local_balance + c.remote_balance = s.channel_capacity) h ?_ uid c hc
      have := h rid ch hch
      simp only
      omega

theorem State.chanInv_internal {s : State} (sid rid amt : Int) (h : s.ChanInv) :
    ((s.process_internal sid rid amt).2).ChanInv := by
  unfold State.process_internal
  split
  · exact h
  · exact h
  · next sch rch hsch hrch =>
    split
    · exact h
    · have h1 : ∀ uid c,
          (s.channels.set sid
            ⟨sch.local_balance + amt, sch.remote_balance - amt⟩) uid = some c →
          c.local_balance + c.remote_balance = s.channel_capacity := by
        refine ChannelMap.set_forall h ?_
        have := h sid sch hsch
        simp only
        omega
      intro uid c hc
      simp only at hc
      split at hc
      · exact h1 uid c hc
      · next rch' hrch' =>
        refine ChannelMap.set_forall h1 ?_ uid c hc
        have := h1 rid rch' hrch'
        simp only
        omega

theorem State.chanInv_process {s : State} (tx : Transaction) (h : s.ChanInv) :
    ((s.process_transaction tx).2).ChanInv := by
  unfold State.process_transaction
  cases tx.tx_type
  · exact State.chanInv_internal _ _ _ h
  · exact State.chanInv_inbound _ _ h
  · exact State.chanInv_outbound _ _ h

theorem State.isSome_outbound (s : State) (sid amt uid : Int)
    (h : (s.channels uid).isSome) :
    (((s.process_external_outbound sid amt).2).channels uid).isSome := by
  unfold State.process_external_outbound
  split
  · exact h
  · split
    · exact h
    · exact ChannelMap.set_isSome uid h

theorem State.isSome_inbound (s : State) (rid amt uid : Int)
    (h : (s.channels uid).isSome) :
    (((s.process_external_inbound rid amt).2).channels uid).isSome := by
  unfold State.process_external_inbound
  split
  · exact h
  · split
    · exact h
    · exact ChannelMap.set_isSome uid h

theorem State.isSome_internal (s : State) (sid rid amt uid : Int)
    (h : (s.channels uid).isSome) :
    (((s.process_internal sid rid amt).2).channels uid).isSome := by
  unfold State.process_internal
  split
  · exact h
  · exact h
  · next sch rch hsch hrch =>
    split
    · exact h
    · have h1 : ((s.channels.set sid
          ⟨sch.local_balance + amt, sch.remote_balance - amt⟩) uid).isSome :=
        ChannelMap.set_isSome uid h
      simp only
      split
      · exact h1
      · exact ChannelMap.set_isSome uid h1

theorem State.isSome_process (s : State) (tx : Transaction) (uid : Int)
    (h : (s.channels uid).isSome) :
    (((s.process_transaction tx).2).channels uid).isSome := by
  unfold State.process_transaction
  cases tx.tx_type
  · exact s.isSome_internal _ _ _ _ h
  · exact s.isSome_inbound _ _ _ h
  · exact s.isSome_outbound _ _ _ h

theorem State.capacity_run_txs (s : State) (txs : List Transaction) :
    (s.run_txs txs).channel_capacity = s.channel_capacity := by
  induction txs generalizing s with
  | nil => rfl
  | cons tx rest ih =>
    rw [State.run_txs, ih, State.capacity_process]

theorem State.chanInv_run_txs {s : State} (txs : List Transaction)
    (h : s.ChanInv) : (s.run_txs txs).ChanInv := by
  induction txs generalizing s with
  | nil => exact h
  | cons tx rest ih =>
    rw [State.run_txs]
    exact ih (State.chanInv_process tx h)

theorem State.isSome_run_txs (s : State) (txs : List Transaction) (uid : Int)
    (h : (s.channels uid).isSome) : ((s.run_txs txs).channels uid).isSome := by
  induction txs generalizing s with
  | nil => exact h
  | cons tx rest ih =>
    rw [State.run_txs]
    exact ih _ (s.isSome_process tx uid h)

theorem mk_engine_channels (user_ids : List Int) (channel_capacity : Int)
    (initial_split : ℚ) (uid : Int) (h : uid ∈ user_ids) :
    (State.mk_engine user_ids channel_capacity initial_split).channels uid =
      some ⟨pyInt ((channel_capacity : ℚ) * initial_split),
        channel_capacity - pyInt ((channel_capacity : ℚ) * initial_split)⟩ := by
  simp [State.mk_engine, h]

theorem mk_engine_chanInv (user_ids : List Int) (channel_capacity : Int)
    (initial_split : ℚ) :
    (State.mk_engine user_ids channel_capacity initial_split).ChanInv := by
  intro uid ch hch
  have hc : (State.mk_engine user_ids channel_capacity
      initial_split).channel_capacity = channel_capacity := rfl
  rw [hc]
  unfold State.mk_engine at hch
  simp only at hch
  split at hch
  · cases hch
    dsimp only
    omega
  · cases hch

end LegacyEngine

namespace LegacyEngine

theorem State.outbound_false_eq (s : State) (sid amt : Int)
    (h : (s.process_external_outbound sid amt).1 = false) :
    (s.process_external_outbound sid amt).2 = s := by
  cases hc : s.channels sid with
  | none => simp [State.process_external_outbound, hc]
  | some ch =>
    by_cases hlt : ch.remote_balance < amt
    · simp [State.process_external_outbound, hc, hlt]
    · simp [State.process_external_outbound, hc, hlt] at h

theorem State.inbound_false_eq (s : State) (rid amt : Int)
    (h : (s.process_external_inbound rid amt).1 = false) :
    (s.process_external_inbound rid amt).2 = s := by
  cases hc : s.channels rid with
  | none => simp [State.process_external_inbound, hc]
  | some ch =>
    by_cases hlt : ch.local_balance < amt
    · simp [State.process_external_inbound, hc, hlt]
    · simp [State.process_external_inbound, hc, hlt] at h

theorem State.internal_false_eq (s : State) (sid rid amt : Int)
    (h : (s.process_internal sid rid amt).1 = false) :
    (s.process_internal sid rid amt).2 = s := by
  cases hs : s.channels sid with
  | none => simp [State.process_internal, hs]
  | some sch =>
    cases hr : s.channels rid with
    | none => simp [State.process_internal, hs, hr]
    | some rch =>
      by_cases hg : sch.remote_balance < amt ∨ rch.local_balance < amt
      · simp [State.process_internal, hs, hr, hg]
      · simp [State.process_internal, hs, hr, hg] at h

theorem State.process_false_eq (s : State) (tx : Transaction)
    (h : (s.process_transaction tx).1 = false) :
    (s.process_transaction tx).2 = s := by
  rcases tx with ⟨id, ts, sid, rid, amt, ty⟩
  unfold State.process_transaction at h ⊢
  cases ty
  · exact s.internal_false_eq _ _ _ h
  · exact s.inbound_false_eq _ _ h
  · exact s.outbound_false_eq _ _ h

theorem State.inbound_true_of (s : State) (rid amt : Int) (ch : ChannelBalance)
    (hch : s.channels rid = some ch) (hge : amt ≤ ch.local_balance) :
    (s.process_external_inbound rid amt).1 = true := by
  simp [State.process_external_inbound, hch, not_lt.mpr hge]

theorem State.internal_true_of (s : State) (sid rid amt : Int)
    (sch rch : ChannelBalance) (hs : s.channels sid = some sch)
    (hr : s.channels rid = some rch) (h1 : amt ≤ sch.remote_balance)
    (h2 : amt ≤ rch.local_balance) :
    (s.process_internal sid rid amt).1 = true := by
  simp [State.process_internal, hs, hr, not_lt.mpr h1, not_lt.mpr h2]

end LegacyEngine

namespace ArkEngine

theorem State.check_round_pool (s : State) (t : ℚ) :
    (s.check_round t).pool_balance = s.pool_balance := by
  unfold State.check_round
  split
  · rfl
  · dsimp only
    split <;> rfl

theorem State.check_round_users (s : State) (t : ℚ) :
    (s.check_round t).user_balances = s.user_balances := by
  unfold State.check_round
  split
  · rfl
  · dsimp only
    split <;> rfl

theorem State.check_round_capacity (s : State) (t : ℚ) :
    (s.check_round t).pool_capacity = s.pool_capacity := by
  unfold State.check_round
  split
  · rfl
  · dsimp only
    split <;> rfl

theorem State.check_round_interval (s : State) (t : ℚ) :
    (s.check_round t).round_interval = s.round_interval := by
  unfold State.check_round
  split
  · rfl
  · dsimp only
    split <;> rfl

theorem State.ark_outbound_false_eq (s : State) (sid amt : Int)
    (h : (s.process_external_outbound sid amt).1 = false) :
    (s.process_external_outbound sid amt).2 = s := by
  cases hb : s.user_balances sid with
  | none => simp [State.process_external_outbound, hb]
  | some b =>
    by_cases h1 : b < amt
    · simp [State.process_external_outbound, hb, h1]
    · by_cases h2 : s.pool_balance < amt
      · simp [State.process_external_outbound, hb, h1, h2]
      · simp [State.process_external_outbound, hb, h1, h2] at h

theorem State.ark_inbound_false_eq (s : State) (rid amt : Int)
    (h : (s.process_external_inbound rid amt).1 = false) :
    (s.process_external_inbound rid amt).2 = s := by
  cases hb : s.user_balances rid with
  | none => simp [State.process_external_inbound, hb]
  | some b => simp [State.process_external_inbound, hb] at h

theorem State.set_balance_isSome (s : State) (k b uid : Int)
    (h : (s.user_balances uid).isSome) :
    ((s.set_balance k b).user_balances uid).isSome := by
  unfold State.set_balance
  dsimp only
  split <;> simp [h]

theorem State.ark_internal_true_of (s : State) (sid rid amt sb rb : Int)
    (hs : s.user_balances sid = some sb) (h1 : amt ≤ sb)
    (hr : s.user_balances rid = some rb) :
    (s.process_internal sid rid amt).1 = true := by
  unfold State.process_internal
  rw [hs]
  dsimp only
  rw [if_neg (not_lt.mpr h1), hr]
  dsimp only
  cases hx : (s.set_balance sid (sb - amt)).user_balances rid with
  | none =>
    have hsome := s.set_balance_isSome sid (sb - amt) rid (by rw [hr]; rfl)
    rw [hx] at hsome
    cases hsome
  | some rb1 => simp [hx]

theorem State.ark_internal_false_eq (s : State) (sid rid amt : Int)
    (h : (s.process_internal sid rid amt).1 = false) :
    (s.process_internal sid rid amt).2 = s := by
  cases hs : s.user_balances sid with
  | none => simp [State.process_internal, hs]
  | some sb =>
    by_cases h1 : sb < amt
    · simp [State.process_internal, hs, h1]
    · cases hr : s.user_balances rid with
      | none => simp [State.process_internal, hs, h1, hr]
      | some rb =>
        exfalso
        rw [s.ark_internal_true_of sid rid amt sb rb hs (not_lt.mp h1) hr] at h
        cases h

theorem State.process_false_balances (s : State) (tx : Transaction)
    (h : (s.process_transaction tx).1 = false) :
    (s.process_transaction tx).2.pool_balance = s.pool_balance ∧
    (s.process_transaction tx).2.user_balances = s.user_balances := by
  rcases tx with ⟨id, ts, sid, rid, amt, ty⟩
  unfold State.process_transaction at h ⊢
  dsimp only at h ⊢
  cases ty
  · rw [(s.check_round ts).ark_internal_false_eq _ _ _ h]
    exact ⟨s.check_round_pool _, s.check_round_users _⟩
  · rw [(s.check_round ts).ark_inbound_false_eq _ _ h]
    exact ⟨s.check_round_pool _, s.check_round_users _⟩
  · rw [(s.check_round ts).ark_outbound_false_eq _ _ h]
    exact ⟨s.check_round_pool _, s.check_round_users _⟩

end ArkEngine

namespace LegacyRefillEngine

theorem State.maybe_refill_of_none (s : State) (rid amt : Int)
    (h : s.base.channels rid = none) :
    s.maybe_refill_for_receiver rid amt = s := by
  unfold State.maybe_refill_for_receiver
  rw [h]

theorem State.maybe_refill_of_enough (s : State) (rid amt : Int)
    (ch : ChannelBalance) (hch : s.base.channels rid = some ch)
    (h : amt ≤ ch.local_balance) :
    s.maybe_refill_for_receiver rid amt = s := by
  unfold State.maybe_refill_for_receiver
  rw [hch]
  dsimp only
  rw [if_pos h]

/-- The refill branch: when the LSP lacks liquidity the receiver's local
balance is raised to `max(int(capacity * refill_target_pct), amount)` and
one refill event is recorded. -/
theorem State.maybe_refill_of_low (s : State) (rid amt : Int)
    (ch : ChannelBalance) (hch : s.base.channels rid = some ch)
    (h : ch.local_balance < amt) :
    s.maybe_refill_for_receiver rid amt =
      { s with
        base := { s.base with channels := (s.base.channels.set rid
          ⟨max (pyInt ((s.base.channel_capacity : ℚ) * s.refill_target_pct)) amt,
            ch.remote_balance⟩) }
        total_fees_paid := s.total_fees_paid + s.rebalance_cost_sats
        total_latency_seconds :=
          s.total_latency_seconds + s.rebalance_latency_seconds
        refill_count := s.refill_count + 1 } := by
  unfold State.maybe_refill_for_receiver
  rw [hch]
  dsimp only
  rw [if_neg (not_le.mpr h)]
  have hmax : amt ≤
      max (pyInt ((s.base.channel_capacity : ℚ) * s.refill_target_pct)) amt :=
    le_max_right _ _
  rw [if_neg (by omega)]
  have key : ch.local_balance +
      (max (pyInt ((s.base.channel_capacity : ℚ) * s.refill_target_pct)) amt -
        ch.local_balance) =
      max (pyInt ((s.base.channel_capacity : ℚ) * s.refill_target_pct)) amt := by
    omega
  rw [key]

/-- On a rejected transaction the refill pre-step made no channel change:
whenever liquidity is injected, the subsequent static-channel transition
succeeds. -/
theorem State.refill_step_channels_of_fail (s : State) (tx : Transaction)
    (h : (((s.refill_step tx).base).process_transaction tx).1 = false) :
    (s.refill_step tx).base.channels = s.base.channels := by
  rcases tx with ⟨id, ts, sid, rid, amt, ty⟩
  unfold State.refill_step at h ⊢
  cases ty
  case EXTERNAL_OUTBOUND => rfl
  case EXTERNAL_INBOUND =>
    dsimp only at h ⊢
    cases hch : s.base.channels rid with
    | none => rw [State.maybe_refill_of_none s rid amt hch]
    | some ch =>
      by_cases hlow : amt ≤ ch.local_balance
      · rw [State.maybe_refill_of_enough s rid amt ch hch hlow]
      · exfalso
        rw [State.maybe_refill_of_low s rid amt ch hch (not_le.mp hlow)] at h
        rw [LegacyEngine.State.process_transaction] at h
        dsimp only at h
        have htrue := LegacyEngine.State.inbound_true_of
          { s.base with channels := (s.base.channels.set rid
              ⟨max (pyInt ((s.base.channel_capacity : ℚ) *
                  s.refill_target_pct)) amt, ch.remote_balance⟩) }
          rid amt
          ⟨max (pyInt ((s.base.channel_capacity : ℚ) *
              s.refill_target_pct)) amt, ch.remote_balance⟩
          (ChannelMap.set_same _ _ _) (le_max_right _ _)
        rw [htrue] at h
        cases h
  case INTERNAL =>
    dsimp only at h ⊢
    cases hsch : s.base.channels sid with
    | none => rfl
    | some sch =>
      rw [hsch] at h
      dsimp only at h ⊢
      by_cases hsolv : amt ≤ sch.remote_balance
      · rw [if_pos hsolv] at h ⊢
        cases hrch : s.base.channels rid with
        | none => rw [State.maybe_refill_of_none s rid amt hrch]
        | some rch =>
          by_cases hlow : amt ≤ rch.local_balance
          · exfalso
            rw [State.maybe_refill_of_enough s rid amt rch hrch hlow] at h
            rw [LegacyEngine.State.process_transaction] at h
            dsimp only at h
            rw [LegacyEngine.State.internal_true_of s.base sid rid amt sch rch
              hsch hrch hsolv hlow] at h
            cases h
          · exfalso
            rw [State.maybe_refill_of_low s rid amt rch hrch (not_le.mp hlow)] at h
            rw [LegacyEngine.State.process_transaction] at h
            dsimp only at h
            by_cases hsr : sid = rid
            · subst hsr
              rw [hsch] at hrch
              cases hrch
              have htrue := LegacyEngine.State.internal_true_of
                { s.base with channels := (s.base.channels.set sid
                    ⟨max (pyInt ((s.base.channel_capacity : ℚ) *
                        s.refill_target_pct)) amt, sch.remote_balance⟩) }
                sid sid amt
                ⟨max (pyInt ((s.base.channel_capacity : ℚ) *
                    s.refill_target_pct)) amt, sch.remote_balance⟩
                ⟨max (pyInt ((s.base.channel_capacity : ℚ) *
                    s.refill_target_pct)) amt, sch.remote_balance⟩
                (ChannelMap.set_same _ _ _) (ChannelMap.set_same _ _ _)
                hsolv (le_max_right _ _)
              rw [htrue] at h
              cases h
            · have hlook : ({ s.base with channels := (s.base.channels.set rid
                  ⟨max (pyInt ((s.base.channel_capacity : ℚ) *
                      s.refill_target_pct)) amt, rch.remote_balance⟩) } :
                    LegacyEngine.State).channels sid = some sch := by
                show s.base.channels.set rid _ sid = some sch
                rw [ChannelMap.set_other _ _ _ _ hsr]
                exact hsch
              have htrue := LegacyEngine.State.internal_true_of
                { s.base with channels := (s.base.channels.set rid
                    ⟨max (pyInt ((s.base.channel_capacity : ℚ) *
                        s.refill_target_pct)) amt, rch.remote_balance⟩) }
                sid rid amt sch
                ⟨max (pyInt ((s.base.channel_capacity : ℚ) *
                    s.refill_target_pct)) amt, rch.remote_balance⟩
                hlook (ChannelMap.set_same _ _ _) hsolv (le_max_right _ _)
              rw [htrue] at h
              cases h
      · rw [if_neg hsolv] at h ⊢

theorem State.process_false_channels (s : State) (tx : Transaction)
    (h : (s.process_transaction tx).1 = false) :
    (s.process_transaction tx).2.base.channels = s.base.channels := by
  unfold State.process_transaction at h ⊢
  dsimp only at h ⊢
  rw [LegacyEngine.State.process_false_eq _ _ h]
  exact State.refill_step_channels_of_fail
    { s with total_tx_count := s.total_tx_count + 1 } tx h

end LegacyRefillEngine

/-- C1: static-channel engine invariant. For every user registered at
construction, the initial channel is `local = floor(capacity * split)` and
`remote = capacity - local`, and after any sequence of
`process_transaction` calls (whatever their results) the user still has a
channel with `local + remote = channel_capacity`. -/
theorem spec_C1 (user_ids : List Int) (channel_capacity : Int)
    (initial_split : ℚ) (hcap : 0 ≤ channel_capacity)
    (hsplit : 0 ≤ initial_split) (txs : List Transaction) (uid : Int)
    (huid : uid ∈ user_ids) :
    ((LegacyEngine.State.mk_engine user_ids channel_capacity
        initial_split).channels uid =
      some ⟨⌊(channel_capacity : ℚ) * initial_split⌋,
        channel_capacity - ⌊(channel_capacity : ℚ) * initial_split⌋⟩) ∧
    ∃ ch, ((LegacyEngine.State.mk_engine user_ids channel_capacity
        initial_split).run_txs txs).channels uid = some ch ∧
      ch.local_balance + ch.remote_balance = channel_capacity := by
  have hprod : 0 ≤ (channel_capacity : ℚ) * initial_split :=
    mul_nonneg (by exact_mod_cast hcap) hsplit
  have hch0 := LegacyEngine.mk_engine_channels user_ids channel_capacity
    initial_split uid huid
  constructor
  · rw [hch0, pyInt_eq_floor _ hprod]
  · have hreg : ((LegacyEngine.State.mk_engine user_ids channel_capacity
        initial_split).channels uid).isSome := by
      rw [hch0]; rfl
    have h1 := LegacyEngine.State.isSome_run_txs _ txs uid hreg
    obtain ⟨ch, hch⟩ := Option.isSome_iff_exists.mp h1
    refine ⟨ch, hch, ?_⟩
    have hinv := LegacyEngine.State.chanInv_run_txs txs
      (LegacyEngine.mk_engine_chanInv user_ids channel_capacity initial_split)
    have := hinv uid ch hch
    rwa [LegacyEngine.State.capacity_run_txs] at this

/-- Witness for C1 at a concrete engine and transaction list. -/
theorem spec_C1_witness :
    0 ≤ (1000000 : Int) ∧ 0 ≤ (1 / 2 : ℚ) ∧ (3 : Int) ∈ [(3 : Int)] ∧
    (((LegacyEngine.State.mk_engine [3] 1000000 (1 / 2)).channels 3 =
      some ⟨⌊((1000000 : Int) : ℚ) * (1 / 2)⌋,
        1000000 - ⌊((1000000 : Int) : ℚ) * (1 / 2)⌋⟩) ∧
    ∃ ch, ((LegacyEngine.State.mk_engine [3] 1000000 (1 / 2)).run_txs
        [⟨"t1", 5, 3, -1, 250000, TransactionType.EXTERNAL_OUTBOUND⟩]).channels 3 =
        some ch ∧ ch.local_balance + ch.remote_balance = 1000000) :=
  ⟨by norm_num, by norm_num, by simp,
    spec_C1 [3] 1000000 (1 / 2) (by norm_num) (by norm_num)
      [⟨"t1", 5, 3, -1, 250000, TransactionType.EXTERNAL_OUTBOUND⟩] 3 (by simp)⟩

/-- C2: rejection atomicity. For each of the three engines, a call to
`process_transaction` that returns `false` leaves every balance held by
the engine (each channel's local and remote balance, each user balance,
and the pool balance) equal to its pre-call value. -/
theorem spec_C2 :
    (∀ (s : LegacyEngine.State) (tx : Transaction),
      (s.process_transaction tx).1 = false →
      (s.process_transaction tx).2.channels = s.channels) ∧
    (∀ (s : LegacyRefillEngine.State) (tx : Transaction),
      (s.process_transaction tx).1 = false →
      (s.process_transaction tx).2.base.channels = s.base.channels) ∧
    (∀ (s : ArkEngine.State) (tx : Transaction),
      (s.process_transaction tx).1 = false →
      (s.process_transaction tx).2.pool_balance = s.pool_balance ∧
      (s.process_transaction tx).2.user_balances = s.user_balances) := by
  refine ⟨?_, ?_, ?_⟩
  · intro s tx h
    rw [LegacyEngine.State.process_false_eq s tx h]
  · intro s tx h
    exact LegacyRefillEngine.State.process_false_channels s tx h
  · intro s tx h
    exact ArkEngine.State.process_false_balances s tx h

/-- A concrete static-channel state used to exhibit a rejected transaction. -/
def legacyReject : LegacyEngine.State :=
  { channel_capacity := 100
    initial_split := 0
    channels := fun uid => if uid = 1 then some ⟨50, 50⟩ else none }

/-- A concrete refill-engine state used to exhibit a rejected transaction. -/
def refillReject : LegacyRefillEngine.State :=
  { base :=
      { channel_capacity := 100
        initial_split := 0
        channels := fun uid => if uid = 1 then some ⟨0, 100⟩ else none }
    refill_target_pct := 0
    rebalance_cost_sats := 10
    rebalance_latency_seconds := 30
    total_fees_paid := 0
    total_latency_seconds := 0
    refill_count := 0
    total_tx_count := 0 }

/-- A concrete Ark state used to exhibit a rejected transaction. -/
def arkReject : ArkEngine.State := ArkEngine.State.mk_engine [1] 500000 5000000 600

/-- Witness for C2: three concrete rejected transactions, one per engine. -/
theorem spec_C2_witness :
    ((legacyReject.process_transaction
        ⟨"a", 0, 1, -1, 60, TransactionType.EXTERNAL_OUTBOUND⟩).1 = false ∧
      (legacyReject.process_transaction
        ⟨"a", 0, 1, -1, 60, TransactionType.EXTERNAL_OUTBOUND⟩).2.channels =
        legacyReject.channels) ∧
    ((refillReject.process_transaction
        ⟨"b", 0, 1, -1, 200, TransactionType.EXTERNAL_OUTBOUND⟩).1 = false ∧
      (refillReject.process_transaction
        ⟨"b", 0, 1, -1, 200, TransactionType.EXTERNAL_OUTBOUND⟩).2.base.channels =
        refillReject.base.channels) ∧
    ((arkReject.process_transaction
        ⟨"c", 0, 1, -1, 1000000, TransactionType.EXTERNAL_OUTBOUND⟩).1 = false ∧
      (arkReject.process_transaction
        ⟨"c", 0, 1, -1, 1000000, TransactionType.EXTERNAL_OUTBOUND⟩).2.pool_balance =
        arkReject.pool_balance ∧
      (arkReject.process_transaction
        ⟨"c", 0, 1, -1, 1000000, TransactionType.EXTERNAL_OUTBOUND⟩).2.user_balances =
        arkReject.user_balances) :=
  ⟨⟨by decide, spec_C2.1 _ _ (by decide)⟩,
    ⟨by decide, spec_C2.2.1 _ _ (by decide)⟩,
    ⟨by decide, (spec_C2.2.2 _ _ (by decide)).1, (spec_C2.2.2 _ _ (by decide)).2⟩⟩

namespace ArkEngine

theorem State.set_balance_pool (s : State) (k b : Int) :
    (s.set_balance k b).pool_balance = s.pool_balance := rfl

theorem State.set_balance_forall {P : Int → Prop} {s : State} {k b : Int}
    (hm : ∀ uid c, s.user_balances uid = some c → P c) (hb : P b) :
    ∀ uid c, (s.set_balance k b).user_balances uid = some c → P c := by
  intro uid c h
  unfold State.set_balance at h
  dsimp only at h
  split at h
  · cases h; exact hb
  · exact hm uid c h

theorem State.internal_pool (s : State) (sid rid amt : Int) :
    (s.process_internal sid rid amt).2.pool_balance = s.pool_balance := by
  cases hs : s.user_balances sid with
  | none => simp [State.process_internal, hs]
  | some sb =>
    by_cases h1 : sb < amt
    · simp [State.process_internal, hs, h1]
    · simp only [State.process_internal, hs, h1, if_false, if_neg h1]
      cases hr : s.user_balances rid with
      | none => simp [hr]
      | some rb =>
        simp only [hr]
        cases hx : (s.set_balance sid (sb - amt)).user_balances rid with
        | none => simp [hx, State.set_balance_pool]
        | some rb1 => simp [hx, State.set_balance_pool]

theorem State.outbound_pool_nonneg (s : State) (sid amt : Int)
    (hamt : 0 < amt) (h : 0 ≤ s.pool_balance) :
    0 ≤ (s.process_external_outbound sid amt).2.pool_balance := by
  cases hs : s.user_balances sid with
  | none => simpa [State.process_external_outbound, hs] using h
  | some b =>
    by_cases h1 : b < amt
    · simpa [State.process_external_outbound, hs, h1] using h
    · by_cases h2 : s.pool_balance < amt
      · simpa [State.process_external_outbound, hs, h1, h2] using h
      · simp only [State.process_external_outbound, hs, h1, h2, if_false,
          if_neg h1, if_neg h2]
        omega

theorem State.inbound_pool_nonneg (s : State) (rid amt : Int)
    (hamt : 0 < amt) (h : 0 ≤ s.pool_balance) :
    0 ≤ (s.process_external_inbound rid amt).2.pool_balance := by
  cases hr : s.user_balances rid with
  | none => simpa [State.process_external_inbound, hr] using h
  | some b =>
    simp only [State.process_external_inbound, hr]
    omega

theorem State.pool_nonneg_process (s : State) (tx : Transaction)
    (hamt : 0 < tx.amount_sats) (h : 0 ≤ s.pool_balance) :
    0 ≤ (s.process_transaction tx).2.pool_balance := by
  rcases tx with ⟨id, ts, sid, rid, amt, ty⟩
  unfold State.process_transaction
  have hpool : 0 ≤ (s.check_round ts).pool_balance := by
    rw [s.check_round_pool ts]; exact h
  cases ty
  · show 0 ≤ ((s.check_round ts).process_internal sid rid amt).2.pool_balance
    rw [State.internal_pool]; exact hpool
  · exact State.inbound_pool_nonneg _ _ _ hamt hpool
  · exact State.outbound_pool_nonneg _ _ _ hamt hpool

theorem State.pool_nonneg_run (s : State) (txs : List Transaction)
    (htx : ∀ tx ∈ txs, 0 < tx.amount_sats) (h : 0 ≤ s.pool_balance) :
    0 ≤ (s.run_txs txs).pool_balance := by
  induction txs generalizing s with
  | nil => exact h
  | cons tx rest ih =>
    rw [State.run_txs]
    exact ih _ (fun t ht => htx t (List.mem_cons_of_mem tx ht))
      (s.pool_nonneg_process tx (htx tx (List.mem_cons_self tx rest)) h)

theorem mk_engine_pool (user_ids : List Int) (pool_capacity uib : Int)
    (ri : ℚ) :
    (State.mk_engine user_ids pool_capacity uib ri).pool_balance =
      pool_capacity := rfl

end ArkEngine

/-- C3: pooled-engine invariant. From any construction with nonnegative
pool capacity, replaying transactions with positive amounts keeps
`pool_balance` nonnegative; and a successful INTERNAL transfer leaves
`pool_balance` exactly unchanged. -/
theorem spec_C3 :
    (∀ (user_ids : List Int) (pool_capacity user_initial_balance : Int)
        (round_interval : ℚ) (txs : List Transaction),
      0 ≤ pool_capacity → (∀ tx ∈ txs, 0 < tx.amount_sats) →
      0 ≤ ((ArkEngine.State.mk_engine user_ids pool_capacity
        user_initial_balance round_interval).run_txs txs).pool_balance) ∧
    (∀ (s : ArkEngine.State) (tx : Transaction),
      tx.tx_type = TransactionType.INTERNAL →
      (s.process_transaction tx).1 = true →
      (s.process_transaction tx).2.pool_balance = s.pool_balance) := by
  constructor
  · intro user_ids pool_capacity uib ri txs hcap htx
    exact ArkEngine.State.pool_nonneg_run _ txs htx
      (by rw [ArkEngine.mk_engine_pool]; exact hcap)
  · intro s tx hty htrue
    rcases tx with ⟨id, ts, sid, rid, amt, ty⟩
    cases hty
    unfold ArkEngine.State.process_transaction
    show ((s.check_round ts).process_internal sid rid amt).2.pool_balance =
      s.pool_balance
    rw [ArkEngine.State.internal_pool, ArkEngine.State.check_round_pool]

/-- Witness for C3: the empty-pool internal-transfer scenario. -/
theorem spec_C3_witness :
    (0 ≤ (0 : Int) ∧
      (∀ tx ∈ [(⟨"i", 0, 1, 2, 2000000, TransactionType.INTERNAL⟩ : Transaction)],
        0 < tx.amount_sats) ∧
      0 ≤ ((ArkEngine.State.mk_engine [1, 2] 0 5000000 600).run_txs
        [⟨"i", 0, 1, 2, 2000000, TransactionType.INTERNAL⟩]).pool_balance) ∧
    (((ArkEngine.State.mk_engine [1, 2] 0 5000000 600).process_transaction
        ⟨"i", 0, 1, 2, 2000000, TransactionType.INTERNAL⟩).1 = true ∧
      ((ArkEngine.State.mk_engine [1, 2] 0 5000000 600).process_transaction
        ⟨"i", 0, 1, 2, 2000000, TransactionType.INTERNAL⟩).2.pool_balance =
        (ArkEngine.State.mk_engine [1, 2] 0 5000000 600).pool_balance) :=
  ⟨⟨by norm_num, by decide,
      spec_C3.1 [1, 2] 0 5000000 600
        [⟨"i", 0, 1, 2, 2000000, TransactionType.INTERNAL⟩] (by norm_num) (by decide)⟩,
    ⟨by decide, spec_C3.2 _ _ rfl (by decide)⟩⟩

namespace ArkEngine

/-- When at least one round interval has elapsed, `check_round` advances
the round tracking and appends exactly one pool-balance sample. -/
theorem State.check_round_of_pos (s : State) (t : ℚ)
    (hint : 0 < s.round_interval)
    (hpos : 0 < ⌊(t - s.last_round_time) / s.round_interval⌋) :
    s.check_round t =
      { s with
        round_count :=
          s.round_count + ⌊(t - s.last_round_time) / s.round_interval⌋
        last_round_time := s.last_round_time +
          ⌊(t - s.last_round_time) / s.round_interval⌋ * s.round_interval
        tvl_samples := s.tvl_samples ++ [s.pool_balance] } := by
  have hlate : ¬ t ≤ s.last_round_time := by
    intro hle
    have hq : (t - s.last_round_time) / s.round_interval ≤ 0 :=
      div_nonpos_iff.mpr (Or.inr ⟨sub_nonpos.mpr hle, hint.le⟩)
    exact absurd (Int.floor_nonpos hq) (by omega)
  rw [State.check_round, if_neg hlate]
  dsimp only
  rw [if_pos hpos]

/-- When less than one round interval has elapsed, `check_round` changes
nothing. -/
theorem State.check_round_of_nonpos (s : State) (t : ℚ)
    (hnp : ⌊(t - s.last_round_time) / s.round_interval⌋ ≤ 0) :
    s.check_round t = s := by
  by_cases hle : t ≤ s.last_round_time
  · rw [State.check_round, if_pos hle]
  · rw [State.check_round, if_neg hle]
    dsimp only
    rw [if_neg (by omega)]

theorem State.set_balance_round_fields (s : State) (k b : Int) :
    (s.set_balance k b).tvl_samples = s.tvl_samples ∧
    (s.set_balance k b).round_count = s.round_count ∧
    (s.set_balance k b).last_round_time = s.last_round_time :=
  ⟨rfl, rfl, rfl⟩

theorem State.outbound_round_fields (s : State) (sid amt : Int) :
    (s.process_external_outbound sid amt).2.tvl_samples = s.tvl_samples ∧
    (s.process_external_outbound sid amt).2.round_count = s.round_count ∧
    (s.process_external_outbound sid amt).2.last_round_time =
      s.last_round_time := by
  cases hs : s.user_balances sid with
  | none => simp [State.process_external_outbound, hs]
  | some b =>
    by_cases h1 : b < amt
    · simp [State.process_external_outbound, hs, h1]
    · by_cases h2 : s.pool_balance < amt
      · simp [State.process_external_outbound, hs, h1, h2]
      · simp [State.process_external_outbound, hs, h1, h2, State.set_balance]

theorem State.inbound_round_fields (s : State) (rid amt : Int) :
    (s.process_external_inbound rid amt).2.tvl_samples = s.tvl_samples ∧
    (s.process_external_inbound rid amt).2.round_count = s.round_count ∧
    (s.process_external_inbound rid amt).2.last_round_time =
      s.last_round_time := by
  cases hr : s.user_balances rid with
  | none => simp [State.process_external_inbound, hr]
  | some b => simp [State.process_external_inbound, hr, State.set_balance]

theorem State.internal_round_fields (s : State) (sid rid amt : Int) :
    (s.process_internal sid rid amt).2.tvl_samples = s.tvl_samples ∧
    (s.process_internal sid rid amt).2.round_count = s.round_count ∧
    (s.process_internal sid rid amt).2.last_round_time =
      s.last_round_time := by
  cases hs : s.user_balances sid with
  | none => simp [State.process_internal, hs]
  | some sb =>
    by_cases h1 : sb < amt
    · simp [State.process_internal, hs, h1]
    · simp only [State.process_internal, hs, if_neg h1]
      cases hr : s.user_balances rid with
      | none => simp [hr]
      | some rb =>
        simp only [hr]
        cases hx : (s.set_balance sid (sb - amt)).user_balances rid with
        | none => simp [hx, State.set_balance]
        | some rb1 => simp [hx, State.set_balance]

theorem State.process_round_fields (s : State) (tx : Transaction) :
    (s.process_transaction tx).2.tvl_samples =
      (s.check_round tx.timestamp).tvl_samples ∧
    (s.process_transaction tx).2.round_count =
      (s.check_round tx.timestamp).round_count ∧
    (s.process_transaction tx).2.last_round_time =
      (s.check_round tx.timestamp).last_round_time := by
  rcases tx with ⟨id, ts, sid, rid, amt, ty⟩
  unfold State.process_transaction
  cases ty
  · exact (s.check_round ts).internal_round_fields sid rid amt
  · exact (s.check_round ts).inbound_round_fields rid amt
  · exact (s.check_round ts).outbound_round_fields sid amt

end ArkEngine

/-- C4: the pooled engine's round check. Before each transaction's balance
transition, with `rounds_passed = floor((timestamp - last_round_time) /
round_interval)`: when positive, the round count advances by it, the
last-round time advances by `rounds_passed * round_interval`, and exactly
one sample equal to the pre-transaction pool balance is appended; when
nonpositive, round state and samples are unchanged. The round fields of
the post-transaction state are those left by the round check, and the
round check touches no balance. -/
theorem spec_C4 (s : ArkEngine.State) (tx : Transaction)
    (hint : 0 < s.round_interval) :
    (0 < ⌊(tx.timestamp - s.last_round_time) / s.round_interval⌋ →
      (s.check_round tx.timestamp).round_count =
        s.round_count +
          ⌊(tx.timestamp - s.last_round_time) / s.round_interval⌋ ∧
      (s.check_round tx.timestamp).last_round_time =
        s.last_round_time +
          ⌊(tx.timestamp - s.last_round_time) / s.round_interval⌋ *
            s.round_interval ∧
      (s.check_round tx.timestamp).tvl_samples =
        s.tvl_samples ++ [s.pool_balance]) ∧
    (⌊(tx.timestamp - s.last_round_time) / s.round_interval⌋ ≤ 0 →
      s.check_round tx.timestamp = s) ∧
    (s.check_round tx.timestamp).pool_balance = s.pool_balance ∧
    (s.check_round tx.timestamp).user_balances = s.user_balances ∧
    (s.process_transaction tx).2.tvl_samples =
      (s.check_round tx.timestamp).tvl_samples ∧
    (s.process_transaction tx).2.round_count =
      (s.check_round tx.timestamp).round_count ∧
    (s.process_transaction tx).2.last_round_time =
      (s.check_round tx.timestamp).last_round_time := by
  refine ⟨?_, ?_, s.check_round_pool _, s.check_round_users _,
    (s.process_round_fields tx).1, (s.process_round_fields tx).2.1,
    (s.process_round_fields tx).2.2⟩
  · intro hpos
    rw [ArkEngine.State.check_round_of_pos s tx.timestamp hint hpos]
    exact ⟨rfl, rfl, rfl⟩
  · intro hnp
    exact ArkEngine.State.check_round_of_nonpos s tx.timestamp hnp

/-- Witness for C4: two full rounds elapse, one sample is appended. -/
theorem spec_C4_witness :
    0 < (ArkEngine.State.mk_engine [1] 1000 0 600).round_interval ∧
    ((ArkEngine.State.mk_engine [1] 1000 0 600).check_round 1300).tvl_samples =
      [1000, 1000] := by
  constructor
  · show (0 : ℚ) < 600
    norm_num
  · have h := (spec_C4 (ArkEngine.State.mk_engine [1] 1000 0 600)
      ⟨"w", 1300, -1, 1, 5, TransactionType.EXTERNAL_INBOUND⟩
      (by show (0 : ℚ) < 600; norm_num)).1
    have hpos : 0 < ⌊(((⟨"w", 1300, -1, 1, 5,
        TransactionType.EXTERNAL_INBOUND⟩ : Transaction).timestamp -
        (ArkEngine.State.mk_engine [1] 1000 0 600).last_round_time) /
        (ArkEngine.State.mk_engine [1] 1000 0 600).round_interval)⌋ := by
      show 0 < ⌊(((1300 : ℚ) - 0) / 600)⌋
      norm_num
    rw [(h hpos).2.2]
    rfl

theorem LegacyEngine.State.inbound_success_eq (s : LegacyEngine.State)
    (rid amt : Int) (ch : ChannelBalance) (hch : s.channels rid = some ch)
    (hge : amt ≤ ch.local_balance) :
    s.process_external_inbound rid amt =
      (true, { s with channels := (s.channels.set rid
        ⟨ch.local_balance - amt, ch.remote_balance + amt⟩) }) := by
  unfold LegacyEngine.State.process_external_inbound
  rw [hch]
  dsimp only
  rw [if_neg (not_lt.mpr hge)]

/-- C5: refill behaviour on inbound. For an EXTERNAL_INBOUND transaction
to a registered receiver whose LSP-side balance is below the (positive)
amount, the refill engine raises the local balance to
`max(floor(capacity * refill_target_pct), amount)` and records exactly one
refill event, then applies the static inbound debit, so the transaction
succeeds with `local = max(floor(capacity * refill_target_pct), amount) -
amount` and `remote` increased by the amount; no other channel changes. -/
theorem spec_C5 (s : LegacyRefillEngine.State) (tx : Transaction)
    (hty : tx.tx_type = TransactionType.EXTERNAL_INBOUND)
    (ch : ChannelBalance) (hch : s.base.channels tx.receiver_id = some ch)
    (hlow : ch.local_balance < tx.amount_sats) (hamt : 0 < tx.amount_sats)
    (hcap : 0 ≤ s.base.channel_capacity) (hpct : 0 ≤ s.refill_target_pct) :
    (s.process_transaction tx).1 = true ∧
    (s.process_transaction tx).2.base.channels tx.receiver_id =
      some ⟨max ⌊(s.base.channel_capacity : ℚ) * s.refill_target_pct⌋
          tx.amount_sats - tx.amount_sats,
        ch.remote_balance + tx.amount_sats⟩ ∧
    (s.process_transaction tx).2.refill_count = s.refill_count + 1 ∧
    (s.process_transaction tx).2.total_fees_paid =
      s.total_fees_paid + s.rebalance_cost_sats ∧
    (s.process_transaction tx).2.total_latency_seconds =
      s.total_latency_seconds + s.rebalance_latency_seconds ∧
    ∀ uid, uid ≠ tx.receiver_id →
      (s.process_transaction tx).2.base.channels uid = s.base.channels uid := by
  have hfloor : pyInt ((s.base.channel_capacity : ℚ) * s.refill_target_pct) =
      ⌊(s.base.channel_capacity : ℚ) * s.refill_target_pct⌋ :=
    pyInt_eq_floor _ (mul_nonneg (by exact_mod_cast hcap) hpct)
  rcases tx with ⟨id, ts, sid, rid, amt, ty⟩
  cases hty
  dsimp only at hch hlow hamt ⊢
  unfold LegacyRefillEngine.State.process_transaction
    LegacyRefillEngine.State.refill_step
  dsimp only
  rw [LegacyRefillEngine.State.maybe_refill_of_low
    { s with total_tx_count := s.total_tx_count + 1 } rid amt ch hch hlow]
  dsimp only
  rw [LegacyEngine.State.process_transaction]
  dsimp only
  rw [LegacyEngine.State.inbound_success_eq _ rid amt
    ⟨max (pyInt ((s.base.channel_capacity : ℚ) * s.refill_target_pct)) amt,
      ch.remote_balance⟩
    (ChannelMap.set_same _ _ _) (le_max_right _ _)]
  dsimp only
  refine ⟨rfl, ?_, rfl, rfl, rfl, ?_⟩
  · rw [ChannelMap.set_same, hfloor]
  · intro uid huid
    rw [ChannelMap.set_other _ _ _ _ huid, ChannelMap.set_other _ _ _ _ huid]

/-- Witness for C5: the refill-trigger scenario (capacity 1,000,000, split
0.0, target 50%, inbound 10,000: success, local ends at 490,000,
refill_count 1). -/
theorem spec_C5_witness :
    ((LegacyRefillEngine.State.mk_engine [1] 1000000 0 (1 / 2) 25000
        30).process_transaction
      ⟨"r", 0, -1, 1, 10000, TransactionType.EXTERNAL_INBOUND⟩).1 = true ∧
    ((LegacyRefillEngine.State.mk_engine [1] 1000000 0 (1 / 2) 25000
        30).process_transaction
      ⟨"r", 0, -1, 1, 10000,
        TransactionType.EXTERNAL_INBOUND⟩).2.base.channels 1 =
      some ⟨490000, 1010000⟩ ∧
    ((LegacyRefillEngine.State.mk_engine [1] 1000000 0 (1 / 2) 25000
        30).process_transaction
      ⟨"r", 0, -1, 1, 10000,
        TransactionType.EXTERNAL_INBOUND⟩).2.refill_count = 1 := by
  have hch : (LegacyRefillEngine.State.mk_engine [1] 1000000 0 (1 / 2) 25000
      30).base.channels 1 = some ⟨0, 1000000⟩ := by
    show (LegacyEngine.State.mk_engine [1] 1000000 0).channels 1 =
      some ⟨0, 1000000⟩
    rw [LegacyEngine.mk_engine_channels [1] 1000000 0 1 (by simp)]
    rw [show pyInt (((1000000 : Int) : ℚ) * 0) = 0 by
      rw [pyInt_eq_floor _ (by norm_num)]; norm_num]
    norm_num
  have h := spec_C5
    (LegacyRefillEngine.State.mk_engine [1] 1000000 0 (1 / 2) 25000 30)
    ⟨"r", 0, -1, 1, 10000, TransactionType.EXTERNAL_INBOUND⟩ rfl
    ⟨0, 1000000⟩ hch (by decide) (by decide) (by decide)
    (by show (0 : ℚ) ≤ 1 / 2; norm_num)
  refine ⟨h.1, ?_, ?_⟩
  · rw [h.2.1]
    show some (⟨max ⌊((1000000 : Int) : ℚ) * (1 / 2 : ℚ)⌋ 10000 - 10000,
      1000000 + 10000⟩ : ChannelBalance) = some ⟨490000, 1010000⟩
    norm_num
  · rw [h.2.2.1]
    rfl

namespace LegacyRefillEngine

/-- When the refill pre-step leaves the (transaction-counted) state
unchanged, processing coincides with the plain static-channel transition
and records no refill event. -/
theorem State.process_of_no_refill (s : State) (tx : Transaction)
    (h : ({ s with total_tx_count := s.total_tx_count + 1 } :
        State).refill_step tx =
      { s with total_tx_count := s.total_tx_count + 1 }) :
    (s.process_transaction tx).1 = (s.base.process_transaction tx).1 ∧
    (s.process_transaction tx).2.base = (s.base.process_transaction tx).2 ∧
    (s.process_transaction tx).2.refill_count = s.refill_count ∧
    (s.process_transaction tx).2.total_fees_paid = s.total_fees_paid ∧
    (s.process_transaction tx).2.total_latency_seconds =
      s.total_latency_seconds := by
  unfold State.process_transaction
  dsimp only
  rw [h]
  exact ⟨rfl, rfl, rfl, rfl, rfl⟩

theorem State.refill_step_outbound (s : State) (tx : Transaction)
    (hty : tx.tx_type = TransactionType.EXTERNAL_OUTBOUND) :
    s.refill_step tx = s := by
  rcases tx with ⟨id, ts, sid, rid, amt, ty⟩
  cases hty
  rfl

theorem State.refill_step_internal_insolvent (s : State) (tx : Transaction)
    (hty : tx.tx_type = TransactionType.INTERNAL)
    (h : ∀ sch, s.base.channels tx.sender_id = some sch →
      sch.remote_balance < tx.amount_sats) :
    s.refill_step tx = s := by
  rcases tx with ⟨id, ts, sid, rid, amt, ty⟩
  cases hty
  unfold State.refill_step
  dsimp only at h ⊢
  cases hch : s.base.channels sid with
  | none => rfl
  | some sch =>
    dsimp only
    rw [if_neg (not_le.mpr (h sch hch))]

end LegacyRefillEngine

/-- C6: refill gating. In the refill engine an INTERNAL transaction whose
sender lacks the remote balance (or has no channel) injects no balance and
records no refill event, and an EXTERNAL_OUTBOUND transaction never does:
in both cases the engine behaves exactly as the plain static-channel
transition. -/
theorem spec_C6 :
    (∀ (s : LegacyRefillEngine.State) (tx : Transaction),
      tx.tx_type = TransactionType.INTERNAL →
      (∀ sch, s.base.channels tx.sender_id = some sch →
        sch.remote_balance < tx.amount_sats) →
      (s.process_transaction tx).1 = (s.base.process_transaction tx).1 ∧
      (s.process_transaction tx).2.base.channels =
        (s.base.process_transaction tx).2.channels ∧
      (s.process_transaction tx).2.refill_count = s.refill_count ∧
      (s.process_transaction tx).2.total_fees_paid = s.total_fees_paid ∧
      (s.process_transaction tx).2.total_latency_seconds =
        s.total_latency_seconds) ∧
    (∀ (s : LegacyRefillEngine.State) (tx : Transaction),
      tx.tx_type = TransactionType.EXTERNAL_OUTBOUND →
      (s.process_transaction tx).1 = (s.base.process_transaction tx).1 ∧
      (s.process_transaction tx).2.base.channels =
        (s.base.process_transaction tx).2.channels ∧
      (s.process_transaction tx).2.refill_count = s.refill_count ∧
      (s.process_transaction tx).2.total_fees_paid = s.total_fees_paid ∧
      (s.process_transaction tx).2.total_latency_seconds =
        s.total_latency_seconds) := by
  constructor
  · intro s tx hty h
    have hid := LegacyRefillEngine.State.refill_step_internal_insolvent
      { s with total_tx_count := s.total_tx_count + 1 } tx hty h
    have hp := s.process_of_no_refill tx hid
    exact ⟨hp.1, by rw [hp.2.1], hp.2.2.1, hp.2.2.2.1, hp.2.2.2.2⟩
  · intro s tx hty
    have hid := LegacyRefillEngine.State.refill_step_outbound
      { s with total_tx_count := s.total_tx_count + 1 } tx hty
    have hp := s.process_of_no_refill tx hid
    exact ⟨hp.1, by rw [hp.2.1], hp.2.2.1, hp.2.2.2.1, hp.2.2.2.2⟩

/-- Witness for C6: an insolvent-sender internal transfer records no
refill. -/
theorem spec_C6_witness :
    (refillReject.process_transaction
      ⟨"g", 0, 1, 1, 200, TransactionType.INTERNAL⟩).1 =
      (refillReject.base.process_transaction
        ⟨"g", 0, 1, 1, 200, TransactionType.INTERNAL⟩).1 ∧
    (refillReject.process_transaction
      ⟨"g", 0, 1, 1, 200, TransactionType.INTERNAL⟩).2.refill_count =
      refillReject.refill_count := by
  have h := spec_C6.1 refillReject ⟨"g", 0, 1, 1, 200, TransactionType.INTERNAL⟩
    rfl (by
      intro sch hsch
      rw [show refillReject.base.channels 1 = some ⟨0, 100⟩ from rfl] at hsch
      cases hsch
      decide)
  exact ⟨h.1, h.2.2.1⟩

namespace Metrics

/-- Left Riemann sum as the spec words it: for each adjacent pair
`(t[i-1], v[i-1])`, `(t[i], _)` of the sample list, accumulate
`v[i-1] * (t[i] - t[i-1])` only when the interval is positive. This is the
specification-side rendering, to be compared with `riemann_sat_seconds`
translated from the code. -/
def spec_left_riemann_sum (tvl_history : List (ℚ × ℚ)) : ℚ :=
  ((tvl_history.zip tvl_history.tail).map (fun p =>
    if 0 < p.2.1 - p.1.1 then p.1.2 * (p.2.1 - p.1.1) else 0)).sum

theorem riemann_eq_spec (l : List (ℚ × ℚ)) :
    riemann_sat_seconds l = spec_left_riemann_sum l := by
  induction l with
  | nil => rfl
  | cons a tl ih =>
    cases tl with
    | nil => rfl
    | cons b rest =>
      obtain ⟨t1, v1⟩ := a
      obtain ⟨t2, v2⟩ := b
      rw [riemann_sat_seconds, ih]
      simp only [spec_left_riemann_sum, List.tail_cons, List.zip_cons_cons,
        List.map_cons, List.sum_cons]

end Metrics

/-- C7: the BTC-Days metric returns 0 for fewer than two samples and
otherwise the positive-delta left Riemann sum divided by
`sats_per_btc * seconds_per_day`; in particular one BTC held for one day
is one BTC-day, and the empty and one-sample histories give 0. -/
theorem spec_C7 :
    (∀ tvl_history : List (ℚ × ℚ), tvl_history.length < 2 →
      Metrics.calculate_btc_days tvl_history = 0) ∧
    (∀ tvl_history : List (ℚ × ℚ), 2 ≤ tvl_history.length →
      Metrics.calculate_btc_days tvl_history =
        Metrics.spec_left_riemann_sum tvl_history /
          ((Metrics.SATS_PER_BTC : ℚ) * (Metrics.SECONDS_PER_DAY : ℚ))) ∧
    Metrics.calculate_btc_days [(0, 100000000), (86400, 100000000)] = 1 ∧
    Metrics.calculate_btc_days [] = 0 ∧
    ∀ x : ℚ, Metrics.calculate_btc_days [(0, x)] = 0 := by
  have h0 : ∀ tvl_history : List (ℚ × ℚ), tvl_history.length < 2 →
      Metrics.calculate_btc_days tvl_history = 0 := by
    intro l hl
    rw [Metrics.calculate_btc_days, if_pos hl]
  have h2 : ∀ tvl_history : List (ℚ × ℚ), 2 ≤ tvl_history.length →
      Metrics.calculate_btc_days tvl_history =
        Metrics.spec_left_riemann_sum tvl_history /
          ((Metrics.SATS_PER_BTC : ℚ) * (Metrics.SECONDS_PER_DAY : ℚ)) := by
    intro l hl
    rw [Metrics.calculate_btc_days, if_neg (not_lt.mpr hl),
      Metrics.riemann_eq_spec, div_div]
  refine ⟨h0, h2, ?_, h0 [] (by norm_num), fun x => h0 [(0, x)] (by norm_num)⟩
  rw [h2 _ (by norm_num)]
  rw [show Metrics.spec_left_riemann_sum [(0, 100000000), (86400, 100000000)] =
    100000000 * 86400 by
      simp [Metrics.spec_left_riemann_sum]]
  rw [show ((Metrics.SATS_PER_BTC : ℚ) * (Metrics.SECONDS_PER_DAY : ℚ)) =
    100000000 * 86400 from rfl]
  norm_num

/-- Witness for C7 at the one-BTC-for-one-day history. -/
theorem spec_C7_witness :
    2 ≤ ([((0 : ℚ), (100000000 : ℚ)), (86400, 100000000)] :
      List (ℚ × ℚ)).length ∧
    Metrics.calculate_btc_days [((0 : ℚ), (100000000 : ℚ)),
        (86400, 100000000)] =
      Metrics.spec_left_riemann_sum [((0 : ℚ), (100000000 : ℚ)),
          (86400, 100000000)] /
        ((Metrics.SATS_PER_BTC : ℚ) * (Metrics.SECONDS_PER_DAY : ℚ)) :=
  ⟨by norm_num, spec_C7.2.1 _ (by norm_num)⟩

namespace ArkEngine

theorem State.outbound_cases (s : State) (sid amt : Int) :
    ((s.process_external_outbound sid amt).1 = true ↔
      ∃ b, s.user_balances sid = some b ∧ amt ≤ b ∧ amt ≤ s.pool_balance) ∧
    (∀ b, s.user_balances sid = some b →
      (s.process_external_outbound sid amt).1 = true →
      (s.process_external_outbound sid amt).2.user_balances sid =
        some (b - amt) ∧
      (s.process_external_outbound sid amt).2.pool_balance =
        s.pool_balance - amt ∧
      ∀ uid, uid ≠ sid →
        (s.process_external_outbound sid amt).2.user_balances uid =
          s.user_balances uid) := by
  cases hb : s.user_balances sid with
  | none =>
    constructor
    · simp [State.process_external_outbound, hb]
    · intro b hcontra
      cases hcontra
  | some b =>
    by_cases h1 : b < amt
    · constructor
      · simp only [State.process_external_outbound, hb, if_pos h1]
        constructor
        · intro hfalse
          cases hfalse
        · rintro ⟨b1, hb1, hle, hpool⟩
          cases hb1
          omega
      · intro b1 hb1 htrue
        exfalso
        cases hb1
        simp [State.process_external_outbound, hb, h1] at htrue
    · by_cases h2 : s.pool_balance < amt
      · constructor
        · simp only [State.process_external_outbound, hb, if_neg h1, if_pos h2]
          constructor
          · intro hfalse
            cases hfalse
          · rintro ⟨b1, hb1, hle, hpool⟩
            omega
        · intro b1 hb1 htrue
          exfalso
          simp [State.process_external_outbound, hb, h1, h2] at htrue
      · constructor
        · simp only [State.process_external_outbound, hb, if_neg h1, if_neg h2]
          constructor
          · intro _
            exact ⟨b, rfl, not_lt.mp h1, not_lt.mp h2⟩
          · intro _
            trivial
        · intro b1 hb1 htrue
          cases hb1
          have hred : s.process_external_outbound sid amt =
              (true, { s.set_balance sid (b - amt) with
                pool_balance := s.pool_balance - amt }) := by
            simp only [State.process_external_outbound, hb, if_neg h1, if_neg h2]
          rw [hred]
          refine ⟨?_, rfl, ?_⟩
          · show (s.set_balance sid (b - amt)).user_balances sid = some (b - amt)
            unfold State.set_balance
            simp
          · intro uid huid
            show (s.set_balance sid (b - amt)).user_balances uid =
              s.user_balances uid
            unfold State.set_balance
            simp [huid]

end ArkEngine

/-- C8: pooled outbound rule. An EXTERNAL_OUTBOUND succeeds exactly when
the sender is registered with balance at least the amount and the pool
holds at least the amount; on success both the sender's balance and the
pool decrease by the amount (other balances untouched), and on failure
every balance is unchanged. -/
theorem spec_C8 (s : ArkEngine.State) (tx : Transaction)
    (hty : tx.tx_type = TransactionType.EXTERNAL_OUTBOUND) :
    ((s.process_transaction tx).1 = true ↔
      ∃ b, s.user_balances tx.sender_id = some b ∧ tx.amount_sats ≤ b ∧
        tx.amount_sats ≤ s.pool_balance) ∧
    (∀ b, s.user_balances tx.sender_id = some b →
      (s.process_transaction tx).1 = true →
      (s.process_transaction tx).2.user_balances tx.sender_id =
        some (b - tx.amount_sats) ∧
      (s.process_transaction tx).2.pool_balance =
        s.pool_balance - tx.amount_sats ∧
      ∀ uid, uid ≠ tx.sender_id →
        (s.process_transaction tx).2.user_balances uid =
          s.user_balances uid) ∧
    ((s.process_transaction tx).1 = false →
      (s.process_transaction tx).2.pool_balance = s.pool_balance ∧
      (s.process_transaction tx).2.user_balances = s.user_balances) := by
  have hfalse := ArkEngine.State.process_false_balances s tx
  rcases tx with ⟨id, ts, sid, rid, amt, ty⟩
  cases hty
  have hc := ArkEngine.State.outbound_cases (s.check_round ts) sid amt
  rw [s.check_round_users, s.check_round_pool] at hc
  exact ⟨hc.1, hc.2, hfalse⟩

/-- Witness for C8: the pooled-outbound-exceeding-pool scenario
(pool 500,000, user balance 5,000,000, outbound 1,000,000 fails with both
balances unchanged). -/
theorem spec_C8_witness :
    ((arkReject.process_transaction
      ⟨"o", 0, 1, -1, 1000000, TransactionType.EXTERNAL_OUTBOUND⟩).1 =
      false) ∧
    (arkReject.process_transaction
      ⟨"o", 0, 1, -1, 1000000,
        TransactionType.EXTERNAL_OUTBOUND⟩).2.pool_balance =
      arkReject.pool_balance ∧
    (arkReject.process_transaction
      ⟨"o", 0, 1, -1, 1000000,
        TransactionType.EXTERNAL_OUTBOUND⟩).2.user_balances =
      arkReject.user_balances :=
  ⟨by decide,
    ((spec_C8 arkReject
      ⟨"o", 0, 1, -1, 1000000, TransactionType.EXTERNAL_OUTBOUND⟩
      rfl).2.2 (by decide)).1,
    ((spec_C8 arkReject
      ⟨"o", 0, 1, -1, 1000000, TransactionType.EXTERNAL_OUTBOUND⟩
      rfl).2.2 (by decide)).2⟩

/-- The passthrough engine (`src/engines/passthrough_engine.py`): every
transaction succeeds and the TVL is always 0. -/
def PassthroughEngine : Engine Unit :=
  { process_transaction := fun s _ => (true, s)
    get_current_tvl := fun _ => 0
    get_name := "Passthrough" }

namespace SimulationRunner

/-- The (timestamp, tvl) samples the runner records over a transaction
list: one per transaction, taken right after that transaction was
processed. -/
def samples {σ : Type} (E : Engine σ) : σ → List Transaction → List (ℚ × ℚ)
  | _, [] => []
  | s, tx :: rest =>
    (tx.timestamp, E.get_current_tvl (E.process_transaction s tx).2) ::
      samples E (E.process_transaction s tx).2 rest

theorem run_loop_spec {σ : Type} (E : Engine σ) (txs : List Transaction) :
    ∀ (s : σ) (acc : SimulationResult),
      (run_loop E s acc txs).2 = E.run_txs s txs ∧
      (run_loop E s acc txs).1.tx_success_count +
        (run_loop E s acc txs).1.tx_failure_count =
        acc.tx_success_count + acc.tx_failure_count + (txs.length : Int) ∧
      (run_loop E s acc txs).1.total_volume_processed +
        (run_loop E s acc txs).1.total_volume_failed =
        acc.total_volume_processed + acc.total_volume_failed +
          (txs.map Transaction.amount_sats).sum ∧
      (run_loop E s acc txs).1.tvl_history =
        acc.tvl_history ++ samples E s txs := by
  induction txs with
  | nil =>
    intro s acc
    refine ⟨rfl, ?_, ?_, ?_⟩
    · simp [run_loop, Engine.run_txs]
    · simp [run_loop]
    · simp [run_loop, samples]
  | cons tx rest ih =>
    intro s acc
    rw [run_loop]
    cases hr : (E.process_transaction s tx).1 with
    | «true» =>
      simp only [hr, if_pos]
      obtain ⟨ih1, ih2, ih3, ih4⟩ := ih (E.process_transaction s tx).2 _
      refine ⟨?_, ?_, ?_, ?_⟩
      · rw [ih1, Engine.run_txs]
      · rw [ih2]
        dsimp only
        simp only [List.length_cons]
        push_cast
        omega
      · rw [ih3]
        dsimp only
        rw [List.map_cons, List.sum_cons]
        omega
      · rw [ih4]
        dsimp only
        rw [List.append_assoc, List.singleton_append, samples]
    | «false» =>
      simp only [hr, Bool.false_eq_true, if_false]
      obtain ⟨ih1, ih2, ih3, ih4⟩ := ih (E.process_transaction s tx).2 _
      refine ⟨?_, ?_, ?_, ?_⟩
      · rw [ih1, Engine.run_txs]
      · rw [ih2]
        dsimp only
        simp only [List.length_cons]
        push_cast
        omega
      · rw [ih3]
        dsimp only
        rw [List.map_cons, List.sum_cons]
        omega
      · rw [ih4]
        dsimp only
        rw [List.append_assoc, List.singleton_append, samples]

theorem samples_length {σ : Type} (E : Engine σ) (txs : List Transaction) :
    ∀ s : σ, (samples E s txs).length = txs.length := by
  induction txs with
  | nil => intro s; rfl
  | cons tx rest ih =>
    intro s
    rw [samples, List.length_cons, List.length_cons, ih]

theorem samples_get {σ : Type} (E : Engine σ) (txs : List Transaction) :
    ∀ (s : σ) (i : Nat) (hi : i < txs.length),
      (samples E s txs)[i]? =
        some ((txs.get ⟨i, hi⟩).timestamp,
          E.get_current_tvl (E.run_txs s (txs.take (i + 1)))) := by
  induction txs with
  | nil =>
    intro s i hi
    exact absurd hi (by simp)
  | cons tx rest ih =>
    intro s i hi
    cases i with
    | zero =>
      rw [samples]
      simp only [List.getElem?_cons_zero, List.take_succ_cons, List.take_zero]
      rfl
    | succ n =>
      rw [samples]
      simp only [List.getElem?_cons_succ, List.take_succ_cons]
      have hn : n < rest.length := by
        rw [List.length_cons] at hi
        omega
      rw [ih (E.process_transaction s tx).2 n hn, Engine.run_txs]
      rfl

end SimulationRunner

/-- C9: the runner contract. For every finite transaction list, the final
engine state is the in-order fold of `process_transaction`, success plus
failure counts equal the input length, processed plus failed volume equal
the summed input amounts, and the TVL history holds exactly one sample per
input transaction, in order, each taken via `get_current_tvl` right after
its transaction. -/
theorem spec_C9 {σ : Type} (E : Engine σ) (s : σ) (txs : List Transaction) :
    (SimulationRunner.run E s txs).2 = E.run_txs s txs ∧
    (SimulationRunner.run E s txs).1.tx_success_count +
      (SimulationRunner.run E s txs).1.tx_failure_count =
      (txs.length : Int) ∧
    (SimulationRunner.run E s txs).1.total_volume_processed +
      (SimulationRunner.run E s txs).1.total_volume_failed =
      (txs.map Transaction.amount_sats).sum ∧
    (SimulationRunner.run E s txs).1.tvl_history.length = txs.length ∧
    ∀ (i : Nat) (hi : i < txs.length),
      (SimulationRunner.run E s txs).1.tvl_history[i]? =
        some ((txs.get ⟨i, hi⟩).timestamp,
          E.get_current_tvl (E.run_txs s (txs.take (i + 1)))) := by
  obtain ⟨h1, h2, h3, h4⟩ := SimulationRunner.run_loop_spec E txs s
    { engine_name := E.get_name
      total_volume_processed := 0
      total_volume_failed := 0
      tx_success_count := 0
      tx_failure_count := 0
      tvl_history := [] }
  have hhist : (SimulationRunner.run E s txs).1.tvl_history =
      SimulationRunner.samples E s txs := by
    simpa using h4
  refine ⟨h1, by simpa using h2, by simpa using h3, ?_, ?_⟩
  · rw [hhist]
    exact SimulationRunner.samples_length E txs s
  · intro i hi
    rw [hhist]
    exact SimulationRunner.samples_get E txs s i hi

/-- Witness for C9: a one-transaction run through the passthrough engine
records its sample. -/
theorem spec_C9_witness :
    0 < ([(⟨"p", 1, 1, 2, 5, TransactionType.INTERNAL⟩ : Transaction)]).length ∧
    (SimulationRunner.run PassthroughEngine ()
      [⟨"p", 1, 1, 2, 5, TransactionType.INTERNAL⟩]).1.tvl_history[0]? =
      some ((1 : ℚ), 0) := by
  constructor
  · norm_num
  · have h := (spec_C9 PassthroughEngine ()
      [⟨"p", 1, 1, 2, 5, TransactionType.INTERNAL⟩]).2.2.2.2 0 (by norm_num)
    rw [h]
    rfl

namespace LegacyEngine

/-- Both sides of every channel are nonnegative. -/
def State.NonnegInv (s : State) : Prop :=
  ∀ uid ch, s.channels uid = some ch →
    0 ≤ ch.local_balance ∧ 0 ≤ ch.remote_balance

theorem State.nonneg_outbound {s : State} (sid amt : Int) (hamt : 0 < amt)
    (h : s.NonnegInv) : ((s.process_external_outbound sid amt).2).NonnegInv := by
  unfold State.process_external_outbound
  split
  · exact h
  · next ch hch =>
    split
    · exact h
    · next hguard =>
      intro uid c hc
      refine ChannelMap.set_forall (P := fun c =>
        0 ≤ c.local_balance ∧ 0 ≤ c.remote_balance) h ?_ uid c hc
      have := h sid ch hch
      dsimp only
      omega

theorem State.nonneg_inbound {s : State} (rid amt : Int) (hamt : 0 < amt)
    (h : s.NonnegInv) : ((s.process_external_inbound rid amt).2).NonnegInv := by
  unfold State.process_external_inbound
  split
  · exact h
  · next ch hch =>
    split
    · exact h
    · next hguard =>
      intro uid c hc
      refine ChannelMap.set_forall (P := fun c =>
        0 ≤ c.local_balance ∧ 0 ≤ c.remote_balance) h ?_ uid c hc
      have := h rid ch hch
      dsimp only
      omega

theorem State.nonneg_internal {s : State} (sid rid amt : Int) (hamt : 0 < amt)
    (h : s.NonnegInv) : ((s.process_internal sid rid amt).2).NonnegInv := by
  unfold State.process_internal
  split
  · exact h
  · exact h
  · next sch rch hsch hrch =>
    split
    · exact h
    · next hguard =>
      rw [not_or, not_lt, not_lt] at hguard
      obtain ⟨hg1, hg2⟩ := hguard
      have h1 : ∀ uid c, (s.channels.set sid
          ⟨sch.local_balance + amt, sch.remote_balance - amt⟩) uid = some c →
          0 ≤ c.local_balance ∧ 0 ≤ c.remote_balance := by
        refine ChannelMap.set_forall h ?_
        have := h sid sch hsch
        dsimp only
        omega
      intro uid c hc
      dsimp only at hc
      split at hc
      · exact h1 uid c hc
      · next rch' hrch' =>
        refine ChannelMap.set_forall h1 ?_ uid c hc
        by_cases hsr : rid = sid
        · subst hsr
          rw [hsch] at hrch
          cases hrch
          rw [ChannelMap.set_same] at hrch'
          cases hrch'
          have := h rid sch hsch
          dsimp only
          omega
        · rw [ChannelMap.set_other _ _ _ _ hsr, hrch] at hrch'
          cases hrch'
          have := h rid rch hrch
          dsimp only
          omega

theorem State.nonneg_process {s : State} (tx : Transaction)
    (hamt : 0 < tx.amount_sats) (h : s.NonnegInv) :
    ((s.process_transaction tx).2).NonnegInv := by
  unfold State.process_transaction
  cases htx : tx.tx_type
  · exact State.nonneg_internal _ _ _ hamt h
  · exact State.nonneg_inbound _ _ hamt h
  · exact State.nonneg_outbound _ _ hamt h

theorem State.nonneg_run {s : State} (txs : List Transaction)
    (htx : ∀ tx ∈ txs, 0 < tx.amount_sats) (h : s.NonnegInv) :
    (s.run_txs txs).NonnegInv := by
  induction txs generalizing s with
  | nil => exact h
  | cons tx rest ih =>
    rw [State.run_txs]
    exact ih (fun t ht => htx t (List.mem_cons_of_mem tx ht))
      (State.nonneg_process tx (htx tx (List.mem_cons_self tx rest)) h)

theorem mk_engine_nonneg (user_ids : List Int) (cap : Int) (split : ℚ)
    (hcap : 0 ≤ cap) (h0 : 0 ≤ split) (h1 : split ≤ 1) :
    (State.mk_engine user_ids cap split).NonnegInv := by
  intro uid ch hch
  unfold State.mk_engine at hch
  simp only at hch
  split at hch
  · cases hch
    have hq : (0 : ℚ) ≤ (cap : ℚ) * split :=
      mul_nonneg (by exact_mod_cast hcap) h0
    have hfl : pyInt ((cap : ℚ) * split) = ⌊(cap : ℚ) * split⌋ :=
      pyInt_eq_floor _ hq
    have hlow : 0 ≤ pyInt ((cap : ℚ) * split) := by
      rw [hfl]
      exact Int.le_floor.mpr (by exact_mod_cast hq)
    have hup : pyInt ((cap : ℚ) * split) ≤ cap := by
      rw [hfl]
      have : (cap : ℚ) * split ≤ (cap : ℚ) := by
        calc (cap : ℚ) * split ≤ (cap : ℚ) * 1 :=
              mul_le_mul_of_nonneg_left h1 (by exact_mod_cast hcap)
          _ = (cap : ℚ) := mul_one _
      calc ⌊(cap : ℚ) * split⌋ ≤ ⌊(cap : ℚ)⌋ := Int.floor_le_floor this
        _ = cap := Int.floor_intCast cap
    dsimp only
    omega
  · cases hch

end LegacyEngine

namespace LegacyRefillEngine

theorem State.nonneg_maybe_refill {s : State} (rid amt : Int)
    (h : s.base.NonnegInv) :
    ((s.maybe_refill_for_receiver rid amt).base).NonnegInv := by
  unfold State.maybe_refill_for_receiver
  split
  · exact h
  · next ch hch =>
    dsimp only
    split
    · exact h
    · split
      · exact h
      · next hadd =>
        intro uid c hc
        refine ChannelMap.set_forall (P := fun c =>
          0 ≤ c.local_balance ∧ 0 ≤ c.remote_balance) h ?_ uid c hc
        have := h rid ch hch
        dsimp only
        omega

theorem State.nonneg_refill_step {s : State} (tx : Transaction)
    (h : s.base.NonnegInv) : ((s.refill_step tx).base).NonnegInv := by
  rcases tx with ⟨id, ts, sid, rid, amt, ty⟩
  unfold State.refill_step
  cases ty
  case EXTERNAL_OUTBOUND => exact h
  case EXTERNAL_INBOUND => exact State.nonneg_maybe_refill _ _ h
  case INTERNAL =>
    dsimp only
    split
    · exact h
    · split
      · exact State.nonneg_maybe_refill _ _ h
      · exact h

theorem State.refill_nonneg_process {s : State} (tx : Transaction)
    (hamt : 0 < tx.amount_sats) (h : s.base.NonnegInv) :
    ((s.process_transaction tx).2).base.NonnegInv := by
  unfold State.process_transaction
  dsimp only
  exact LegacyEngine.State.nonneg_process tx hamt
    (State.nonneg_refill_step tx h)

theorem State.refill_nonneg_run {s : State} (txs : List Transaction)
    (htx : ∀ tx ∈ txs, 0 < tx.amount_sats) (h : s.base.NonnegInv) :
    ((s.run_txs txs).base).NonnegInv := by
  induction txs generalizing s with
  | nil => exact h
  | cons tx rest ih =>
    rw [State.run_txs]
    exact ih (fun t ht => htx t (List.mem_cons_of_mem tx ht))
      (State.refill_nonneg_process tx (htx tx (List.mem_cons_self tx rest)) h)

end LegacyRefillEngine

namespace ArkEngine

/-- Every user balance is nonnegative. -/
def State.UserNonneg (s : State) : Prop :=
  ∀ uid b, s.user_balances uid = some b → 0 ≤ b

theorem State.userNonneg_outbound {s : State} (sid amt : Int)
    (h : s.UserNonneg) :
    ((s.process_external_outbound sid amt).2).UserNonneg := by
  cases hb : s.user_balances sid with
  | none =>
    intro uid b
    simp only [State.process_external_outbound, hb]
    exact h uid b
  | some b0 =>
    by_cases h1 : b0 < amt
    · intro uid b
      simp only [State.process_external_outbound, hb, if_pos h1]
      exact h uid b
    · by_cases h2 : s.pool_balance < amt
      · intro uid b
        simp only [State.process_external_outbound, hb, if_neg h1, if_pos h2]
        exact h uid b
      · intro uid b
        simp only [State.process_external_outbound, hb, if_neg h1, if_neg h2]
        refine State.set_balance_forall (P := fun b => 0 ≤ b) h ?_ uid b
        omega

theorem State.userNonneg_inbound {s : State} (rid amt : Int) (hamt : 0 < amt)
    (h : s.UserNonneg) :
    ((s.process_external_inbound rid amt).2).UserNonneg := by
  cases hb : s.user_balances rid with
  | none =>
    intro uid b
    simp only [State.process_external_inbound, hb]
    exact h uid b
  | some b0 =>
    intro uid b
    simp only [State.process_external_inbound, hb]
    refine State.set_balance_forall (P := fun b => 0 ≤ b) h ?_ uid b
    have := h rid b0 hb
    omega

theorem State.userNonneg_internal {s : State} (sid rid amt : Int)
    (hamt : 0 < amt) (h : s.UserNonneg) :
    ((s.process_internal sid rid amt).2).UserNonneg := by
  cases hb : s.user_balances sid with
  | none =>
    intro uid b
    simp only [State.process_internal, hb]
    exact h uid b
  | some sb =>
    by_cases h1 : sb < amt
    · intro uid b
      simp only [State.process_internal, hb, if_pos h1]
      exact h uid b
    · have hmid : ∀ uid b, (s.set_balance sid (sb - amt)).user_balances uid =
          some b → 0 ≤ b :=
        State.set_balance_forall (P := fun b => 0 ≤ b) h (by omega)
      cases hr : s.user_balances rid with
      | none =>
        intro uid b
        simp only [State.process_internal, hb, if_neg h1, hr]
        exact h uid b
      | some rb =>
        intro uid b
        simp only [State.process_internal, hb, if_neg h1, hr]
        cases hx : (s.set_balance sid (sb - amt)).user_balances rid with
        | none =>
          simp only [hx]
          exact hmid uid b
        | some rb1 =>
          simp only [hx]
          refine State.set_balance_forall (P := fun b => 0 ≤ b) hmid ?_ uid b
          have := hmid rid rb1 hx
          omega

theorem State.userNonneg_check_round {s : State} (t : ℚ) (h : s.UserNonneg) :
    (s.check_round t).UserNonneg := by
  intro uid b
  rw [s.check_round_users t]
  exact h uid b

theorem State.userNonneg_process {s : State} (tx : Transaction)
    (hamt : 0 < tx.amount_sats) (h : s.UserNonneg) :
    ((s.process_transaction tx).2).UserNonneg := by
  rcases tx with ⟨id, ts, sid, rid, amt, ty⟩
  unfold State.process_transaction
  have hc := State.userNonneg_check_round ts h
  cases ty
  · exact State.userNonneg_internal _ _ _ hamt hc
  · exact State.userNonneg_inbound _ _ hamt hc
  · exact State.userNonneg_outbound _ _ hc

theorem State.userNonneg_run {s : State} (txs : List Transaction)
    (htx : ∀ tx ∈ txs, 0 < tx.amount_sats) (h : s.UserNonneg) :
    ((s.run_txs txs)).UserNonneg := by
  induction txs generalizing s with
  | nil => exact h
  | cons tx rest ih =>
    rw [State.run_txs]
    exact ih (fun t ht => htx t (List.mem_cons_of_mem tx ht))
      (State.userNonneg_process tx (htx tx (List.mem_cons_self tx rest)) h)

end ArkEngine

/-- C10: implicit non-negativity invariant. With nonnegative construction
parameters (capacity, split fraction in [0,1], pool capacity, initial user
balance) and positive transaction amounts, every stored balance of every
engine stays nonnegative after any sequence of `process_transaction`
calls: every debit is guarded by a sufficient-balance check and refills
only add balance. -/
theorem spec_C10 :
    (∀ (user_ids : List Int) (cap : Int) (split : ℚ)
        (txs : List Transaction),
      0 ≤ cap → 0 ≤ split → split ≤ 1 →
      (∀ tx ∈ txs, 0 < tx.amount_sats) →
      ∀ uid ch, ((LegacyEngine.State.mk_engine user_ids cap split).run_txs
          txs).channels uid = some ch →
        0 ≤ ch.local_balance ∧ 0 ≤ ch.remote_balance) ∧
    (∀ (user_ids : List Int) (cap : Int) (split pct : ℚ) (cost lat : Int)
        (txs : List Transaction),
      0 ≤ cap → 0 ≤ split → split ≤ 1 →
      (∀ tx ∈ txs, 0 < tx.amount_sats) →
      ∀ uid ch, ((LegacyRefillEngine.State.mk_engine user_ids cap split pct
          cost lat).run_txs txs).base.channels uid = some ch →
        0 ≤ ch.local_balance ∧ 0 ≤ ch.remote_balance) ∧
    (∀ (user_ids : List Int) (pool_capacity uib : Int) (ri : ℚ)
        (txs : List Transaction),
      0 ≤ pool_capacity → 0 ≤ uib →
      (∀ tx ∈ txs, 0 < tx.amount_sats) →
      0 ≤ ((ArkEngine.State.mk_engine user_ids pool_capacity uib
        ri).run_txs txs).pool_balance ∧
      ∀ uid b, ((ArkEngine.State.mk_engine user_ids pool_capacity uib
          ri).run_txs txs).user_balances uid = some b → 0 ≤ b) := by
  refine ⟨?_, ?_, ?_⟩
  · intro user_ids cap split txs hcap h0 h1 htx
    exact LegacyEngine.State.nonneg_run txs htx
      (LegacyEngine.mk_engine_nonneg user_ids cap split hcap h0 h1)
  · intro user_ids cap split pct cost lat txs hcap h0 h1 htx
    exact LegacyRefillEngine.State.refill_nonneg_run txs htx
      (LegacyEngine.mk_engine_nonneg user_ids cap split hcap h0 h1)
  · intro user_ids pool_capacity uib ri txs hcap huib htx
    constructor
    · exact ArkEngine.State.pool_nonneg_run _ txs htx hcap
    · refine ArkEngine.State.userNonneg_run txs htx ?_
      intro uid b hb
      unfold ArkEngine.State.mk_engine at hb
      simp only at hb
      split at hb
      · cases hb
        exact huib
      · cases hb

/-- Witness for C10: balances stay nonnegative in a concrete pooled run. -/
theorem spec_C10_witness :
    0 ≤ (500000 : Int) ∧ 0 ≤ (5000000 : Int) ∧
    (∀ tx ∈ [(⟨"n", 0, -1, 1, 700,
        TransactionType.EXTERNAL_INBOUND⟩ : Transaction)],
      0 < tx.amount_sats) ∧
    0 ≤ ((ArkEngine.State.mk_engine [1] 500000 5000000 600).run_txs
      [⟨"n", 0, -1, 1, 700, TransactionType.EXTERNAL_INBOUND⟩]).pool_balance :=
  ⟨by norm_num, by norm_num, by decide,
    (spec_C10.2.2 [1] 500000 5000000 600
      [⟨"n", 0, -1, 1, 700, TransactionType.EXTERNAL_INBOUND⟩]
      (by norm_num) (by norm_num) (by decide)).1⟩
